import Mathlib

/-!
Verification of the cutting-stock optimization service.

Shallow embedding of the core of the `cur-back` repository (TypeScript):
the geometry kernel (`src/unnamed/part_000`, a.k.a. `lib/utils`), the piece
preprocessor, the four placement strategies and the strategy manager.

Conventions of the embedding:
* JavaScript numbers are modelled as rationals (`ℚ`): every arithmetic
  operation performed by the placement code (addition, subtraction,
  multiplication, division, comparison) is exact on the inputs we consider,
  so `ℚ` is a faithful model away from floating-point extremes.
* `Array.prototype.sort` (stable since ES2019) is modelled by
  `List.insertionSort` with the relation `le a b := comparator a b ≤ 0`.
  A stable sort is uniquely determined by a consistent comparator, so any
  stable sorting algorithm is a faithful model of the JavaScript one;
  insertion sort keeps every definition structurally recursive so that
  concrete runs evaluate inside the kernel.
* In-place mutation is modelled by explicit state passing.  Where the source
  mutates an array that several records alias (the beam-search expansion, the
  hybrid local search), the embedding reproduces the effect of the mutation on
  every alias, as the JavaScript semantics dictates.
* `Math.random()` is modelled as an ambient stream `rng : ℕ → ℚ` together
  with a cursor that advances once per call.
* Fallible code returns `Except String`.
* Wall-clock measurements (`executionTime`) are modelled as `0`.
-/

/-- Rational literals that the kernel can evaluate: the default `OfNat ℚ`
instance goes through `Nat.binCast`, which is defined by well-founded
recursion and blocks `decide`; this one builds the value directly. -/
instance (priority := 5000) (n : ℕ) : OfNat ℚ n :=
  ⟨Rat.divInt (Int.ofNat n) (Int.ofNat 1)⟩

attribute [local semireducible] Rat.add Rat.mul Rat.sub Rat.inv Rat.ofScientific

deriving instance DecidableEq for Except

/-- `Rectangle` of `lib/types`. -/
structure Rect where
  x : ℚ
  y : ℚ
  width : ℚ
  height : ℚ
deriving DecidableEq

/-- `OptimizationPiece` of `lib/types`.  `priority` is optional in the
source with every consumer defaulting it to `0` (`piece.priority || 0`), so it
is modelled as a plain rational.  `mustFollowGrain` is never consulted by the
core and is omitted. -/
structure OptimizationPiece where
  id : String
  width : ℚ
  height : ℚ
  quantity : ℕ
  label : Option String := none
  canRotate : Bool := false
  priority : ℚ := 0
deriving DecidableEq

/-- `OptimizationPanel` of `lib/types` (`grainDirection` is never consulted). -/
structure OptimizationPanel where
  width : ℚ
  height : ℚ
deriving DecidableEq

/-- The parts of `OptimizationSettings` the core consults (`padding`,
`cutPreference` and `timeout` are accepted but never read by placement). -/
structure OptimizationSettings where
  kerf : ℚ
deriving DecidableEq

/-- `PlacedPiece` of `lib/types` (`color` is never set by the core). -/
structure PlacedPiece where
  id : String
  x : ℚ
  y : ℚ
  width : ℚ
  height : ℚ
  rotated : Bool
  sheetNumber : ℕ
  label : Option String := none
deriving DecidableEq

/-- `CutInstruction` of `lib/types`, restricted to the fields the algorithms
produce (guillotine cuts with a `position`). -/
structure CutInstruction where
  isVertical : Bool
  position : ℚ
  sheetNumber : Option ℕ := none
deriving DecidableEq

/-- `AlgorithmResult` of `lib/types`, minus `executionTime` (wall clock) which
is modelled as absent. -/
structure AlgorithmResult where
  placedPieces : List PlacedPiece
  unusedPieces : List OptimizationPiece
  efficiency : ℚ
  totalArea : ℚ
  usedArea : ℚ
  wastedArea : ℚ
  cuts : List CutInstruction
  sheetCount : ℕ
  algorithm : String
deriving DecidableEq

/-- The axis-aligned rectangle footprint of a placed piece. -/
def PlacedPiece.toRect (p : PlacedPiece) : Rect :=
  ⟨p.x, p.y, p.width, p.height⟩

/-! ## Geometry kernel (`src/unnamed/part_000`) -/

/-- `calculateArea` of the kernel. -/
def calculateArea (rect : Rect) : ℚ :=
  rect.width * rect.height

/-- `rectanglesOverlap` of the kernel: `!(r1.x + r1.width <= r2.x || r2.x +
r2.width <= r1.x || r1.y + r1.height <= r2.y || r2.y + r2.height <= r1.y)`.
The genetic algorithm's private `piecesOverlap` is the same formula. -/
def rectanglesOverlap (r1 r2 : Rect) : Bool :=
  !(decide (r1.x + r1.width ≤ r2.x) || decide (r2.x + r2.width ≤ r1.x) ||
    decide (r1.y + r1.height ≤ r2.y) || decide (r2.y + r2.height ≤ r1.y))

/-- The overlap test inlined at the top of the kernel's `splitSpace`:
`usedSpace.x < space.x + space.width && usedSpace.x + usedSpace.width >
space.x && usedSpace.y < space.y + space.height && usedSpace.y +
usedSpace.height > space.y`. -/
def splitOverlaps (usedSpace space : Rect) : Bool :=
  decide (usedSpace.x < space.x + space.width) &&
  decide (usedSpace.x + usedSpace.width > space.x) &&
  decide (usedSpace.y < space.y + space.height) &&
  decide (usedSpace.y + usedSpace.height > space.y)

/-- The four candidate strips the kernel's `splitSpace` pushes for one free
rectangle that overlaps `usedSpace`: above, below, left and right of
`usedSpace`, clipped to `space`; a space that does not overlap is kept
unchanged. -/
def splitChildren (usedSpace space : Rect) : List Rect :=
  if splitOverlaps usedSpace space then
    (if usedSpace.y > space.y then
      [⟨space.x, space.y, space.width, usedSpace.y - space.y⟩] else []) ++
    (if usedSpace.y + usedSpace.height < space.y + space.height then
      [⟨space.x, usedSpace.y + usedSpace.height, space.width,
        space.y + space.height - (usedSpace.y + usedSpace.height)⟩] else []) ++
    (if usedSpace.x > space.x then
      [⟨space.x, space.y, usedSpace.x - space.x, space.height⟩] else []) ++
    (if usedSpace.x + usedSpace.width < space.x + space.width then
      [⟨usedSpace.x + usedSpace.width, space.y,
        space.x + space.width - (usedSpace.x + usedSpace.width),
        space.height⟩] else [])
  else [space]

/-- `splitSpace` of the kernel (`src/unnamed/part_000`); the private
`BeamSearchGuillotineAlgorithm.splitSpace` is the identical text.  The unused
`_pieceWidth`/`_pieceHeight` parameters of the source are dropped. -/
def splitSpace (availableSpaces : List Rect) (usedSpace : Rect) (kerf : ℚ) :
    List Rect :=
  (availableSpaces.flatMap (splitChildren usedSpace)).filter
    fun space => decide (space.width > kerf) && decide (space.height > kerf)

/-! ## Piece preprocessor (`src/unnamed/part_000`) -/

/-- `expandPieces` of the kernel: each piece of quantity `n` is pushed `n`
times with `quantity` forced to `1` (`{ ...piece, quantity: 1 }`). -/
def expandPieces (pieces : List OptimizationPiece) : List OptimizationPiece :=
  pieces.flatMap fun piece => List.replicate piece.quantity { piece with quantity := 1 }

/-- The comparator of `sortPiecesByPriority`: priority descending, then
`(b.width * b.height) - (a.width * b.height)` — note the source multiplies
`a.width` by `b.height`, exactly as written. -/
def priorityComparator (a b : OptimizationPiece) : ℚ :=
  if b.priority ≠ a.priority then b.priority - a.priority
  else b.width * b.height - a.width * b.height

/-- `sortPiecesByPriority` of the kernel: stable sort by `priorityComparator`. -/
def sortPiecesByPriority (pieces : List OptimizationPiece) :
    List OptimizationPiece :=
  pieces.insertionSort fun a b => priorityComparator a b ≤ 0

/-! ## Shared geometry predicates used by the specification -/

/-- A rectangle lies inside the `[0,width]×[0,height]` region of a panel. -/
def insidePanel (panel : OptimizationPanel) (r : Rect) : Prop :=
  0 ≤ r.x ∧ r.x + r.width ≤ panel.width ∧ 0 ≤ r.y ∧ r.y + r.height ≤ panel.height

instance (panel : OptimizationPanel) (r : Rect) : Decidable (insidePanel panel r) := by
  unfold insidePanel; infer_instance

/-- Rectangle containment (`r` inside `s`). -/
def rectInside (r s : Rect) : Prop :=
  s.x ≤ r.x ∧ r.x + r.width ≤ s.x + s.width ∧
  s.y ≤ r.y ∧ r.y + r.height ≤ s.y + s.height

/-- Pointwise membership (half-open on the far edges). -/
def rectMem (r : Rect) (px py : ℚ) : Prop :=
  r.x ≤ px ∧ px < r.x + r.width ∧ r.y ≤ py ∧ py < r.y + r.height

instance (r : Rect) (px py : ℚ) : Decidable (rectMem r px py) := by
  unfold rectMem; infer_instance

theorem rectInside_trans {r s t : Rect} (h1 : rectInside r s)
    (h2 : rectInside s t) : rectInside r t := by
  obtain ⟨a1, a2, a3, a4⟩ := h1
  obtain ⟨b1, b2, b3, b4⟩ := h2
  exact ⟨le_trans b1 a1, le_trans a2 b2, le_trans b3 a3, le_trans a4 b4⟩

theorem rectanglesOverlap_mono {r s p : Rect} (hrs : rectInside r s)
    (h : rectanglesOverlap r p = true) : rectanglesOverlap s p = true := by
  obtain ⟨a1, a2, a3, a4⟩ := hrs
  simp only [rectanglesOverlap, Bool.not_eq_true', Bool.or_eq_false_iff,
    decide_eq_false_iff_not, not_le] at h ⊢
  obtain ⟨⟨⟨h1, h2⟩, h3⟩, h4⟩ := h
  refine ⟨⟨⟨?_, ?_⟩, ?_⟩, ?_⟩ <;> linarith

theorem rectanglesOverlap_comm (r s : Rect) :
    rectanglesOverlap r s = rectanglesOverlap s r := by
  simp only [rectanglesOverlap]
  by_cases h1 : r.x + r.width ≤ s.x <;>
  by_cases h2 : s.x + s.width ≤ r.x <;>
  by_cases h3 : r.y + r.height ≤ s.y <;>
  by_cases h4 : s.y + s.height ≤ r.y <;>
  simp [h1, h2, h3, h4]

/-! ## Kernel `splitSpace` properties -/

theorem splitOverlaps_eq_rectanglesOverlap (u s : Rect) :
    splitOverlaps u s = rectanglesOverlap u s := by
  simp only [splitOverlaps, rectanglesOverlap]
  by_cases h1 : u.x < s.x + s.width <;>
  by_cases h2 : u.x + u.width > s.x <;>
  by_cases h3 : u.y < s.y + s.height <;>
  by_cases h4 : u.y + u.height > s.y <;>
  simp_all [not_lt, le_of_not_lt]

theorem splitChildren_length_le (u s : Rect) :
    (splitChildren u s).length ≤ 4 := by
  unfold splitChildren
  split
  · split <;> split <;> split <;> split <;> simp
  · simp

theorem mem_splitChildren_inside {u s r : Rect}
    (hr : r ∈ splitChildren u s) : rectInside r s := by
  unfold splitChildren at hr
  split at hr
  · next hov =>
    simp only [splitOverlaps, Bool.and_eq_true, decide_eq_true_eq, gt_iff_lt] at hov
    obtain ⟨⟨⟨h1, h2⟩, h3⟩, h4⟩ := hov
    simp only [List.mem_append] at hr
    rcases hr with ((h | h) | h) | h <;> split at h <;>
      simp only [List.mem_singleton, List.not_mem_nil] at h <;> subst h <;>
      exact ⟨by (try dsimp only); linarith,
             by (try dsimp only); linarith,
             by (try dsimp only); linarith,
             by (try dsimp only); linarith⟩
  · simp_all [rectInside]

theorem overlap_false_left {r u : Rect} (h : r.x + r.width ≤ u.x) :
    rectanglesOverlap r u = false := by
  simp [rectanglesOverlap, h]

theorem overlap_false_right {r u : Rect} (h : u.x + u.width ≤ r.x) :
    rectanglesOverlap r u = false := by
  simp [rectanglesOverlap, h]

theorem overlap_false_below {r u : Rect} (h : r.y + r.height ≤ u.y) :
    rectanglesOverlap r u = false := by
  simp [rectanglesOverlap, h]

theorem overlap_false_above {r u : Rect} (h : u.y + u.height ≤ r.y) :
    rectanglesOverlap r u = false := by
  simp [rectanglesOverlap, h]

theorem mem_splitChildren_not_overlap {u s r : Rect}
    (hr : r ∈ splitChildren u s) : rectanglesOverlap r u = false := by
  unfold splitChildren at hr
  split at hr
  · next hov =>
    simp only [List.mem_append] at hr
    rcases hr with ((h | h) | h) | h <;> split at h <;>
      simp only [List.mem_singleton, List.not_mem_nil] at h <;> subst h
    · exact overlap_false_below (by (try dsimp only); linarith)
    · exact overlap_false_above (by (try dsimp only); linarith)
    · exact overlap_false_left (by (try dsimp only); linarith)
    · exact overlap_false_right (by (try dsimp only); linarith)
  · next hov =>
    simp only [List.mem_singleton] at hr
    subst hr
    rw [splitOverlaps_eq_rectanglesOverlap] at hov
    rw [rectanglesOverlap_comm]
    simpa using hov

theorem splitChildren_cover {u s : Rect} {px py : ℚ}
    (hov : splitOverlaps u s = true)
    (hs : rectMem s px py) (hu : ¬ rectMem u px py) :
    ∃ r ∈ splitChildren u s, rectMem r px py := by
  simp only [splitOverlaps, Bool.and_eq_true, decide_eq_true_eq, gt_iff_lt] at hov
  obtain ⟨⟨⟨h1, h2⟩, h3⟩, h4⟩ := hov
  obtain ⟨m1, m2, m3, m4⟩ := hs
  simp only [rectMem, not_and, not_lt, not_le] at hu
  have hov' : splitOverlaps u s = true := by
    simp only [splitOverlaps, Bool.and_eq_true, decide_eq_true_eq, gt_iff_lt]
    exact ⟨⟨⟨h1, h2⟩, h3⟩, h4⟩
  unfold splitChildren
  rw [hov']
  simp only [if_pos]
  by_cases c1 : py < u.y
  · refine ⟨⟨s.x, s.y, s.width, u.y - s.y⟩, ?_, m1, m2, m3, by (try dsimp only); linarith⟩
    refine List.mem_append_left _ (List.mem_append_left _ (List.mem_append_left _ ?_))
    rw [if_pos (show u.y > s.y by (try dsimp only); linarith)]
    exact List.mem_singleton_self _
  by_cases c2 : u.y + u.height ≤ py
  · refine ⟨⟨s.x, u.y + u.height, s.width, s.y + s.height - (u.y + u.height)⟩, ?_,
      m1, m2, c2, by (try dsimp only); linarith⟩
    refine List.mem_append_left _ (List.mem_append_left _ (List.mem_append_right _ ?_))
    rw [if_pos (show u.y + u.height < s.y + s.height by (try dsimp only); linarith)]
    exact List.mem_singleton_self _
  by_cases c3 : px < u.x
  · refine ⟨⟨s.x, s.y, u.x - s.x, s.height⟩, ?_, m1, by (try dsimp only); linarith, m3, m4⟩
    refine List.mem_append_left _ (List.mem_append_right _ ?_)
    rw [if_pos (show u.x > s.x by (try dsimp only); linarith)]
    exact List.mem_singleton_self _
  -- the point is not above, below or left of `usedSpace`, and is outside it,
  -- so it must be to the right
  have hx : u.x ≤ px := le_of_not_lt c3
  have hy : u.y ≤ py := le_of_not_lt c1
  have hyy : py < u.y + u.height := lt_of_not_le c2
  have c4 : u.x + u.width ≤ px := by
    by_contra hc
    exact absurd (hu hx (lt_of_not_le hc) hy) (not_le.mpr hyy)
  refine ⟨⟨u.x + u.width, s.y, s.x + s.width - (u.x + u.width), s.height⟩, ?_,
    c4, by (try dsimp only); linarith, m3, m4⟩
  refine List.mem_append_right _ ?_
  rw [if_pos (show u.x + u.width < s.x + s.width by (try dsimp only); linarith)]
  exact List.mem_singleton_self _

theorem mem_splitSpace_kerf {spaces : List Rect} {u r : Rect} {kerf : ℚ}
    (hr : r ∈ splitSpace spaces u kerf) : kerf < r.width ∧ kerf < r.height := by
  unfold splitSpace at hr
  have := List.of_mem_filter hr
  simpa using this

theorem mem_splitSpace_decompose {spaces : List Rect} {u r : Rect} {kerf : ℚ}
    (hr : r ∈ splitSpace spaces u kerf) :
    ∃ s ∈ spaces, r ∈ splitChildren u s := by
  unfold splitSpace at hr
  have := List.mem_of_mem_filter hr
  simpa using this

theorem splitSpace_pass_through {spaces : List Rect} {u s : Rect} {kerf : ℚ}
    (hs : s ∈ spaces) (hov : splitOverlaps u s = false)
    (hw : kerf < s.width) (hh : kerf < s.height) :
    s ∈ splitSpace spaces u kerf := by
  unfold splitSpace
  apply List.mem_filter.mpr
  refine ⟨?_, by simp [hw, hh]⟩
  simp only [List.mem_flatMap]
  exact ⟨s, hs, by simp [splitChildren, hov]⟩

/-! ## The private `splitSpace` of `FirstFitDecreasingAlgorithm`
(`lib/algorithms/first-fit-decreasing.ts`).  It differs from the kernel: the
overlap test is an `if / else if` pair of single-axis interval tests, only one
split direction is ever applied, and the `_kerf` parameter is ignored — there
is no final sliver filter. -/

/-- `FirstFitDecreasingAlgorithm.splitSpace`; the trailing `kerf` argument is
received (the caller passes `settings.kerf`) but never read, exactly as in the
source (`_kerf`). -/
def ffdSplitSpace (availableSpaces : List Rect) (placedPiece : Rect)
    (_kerf : ℚ) : List Rect :=
  availableSpaces.flatMap fun space =>
    if placedPiece.x < space.x + space.width ∧
        placedPiece.x + placedPiece.width > space.x then
      (if placedPiece.y > space.y then
        [⟨space.x, space.y, space.width, placedPiece.y - space.y⟩] else []) ++
      (if placedPiece.y + placedPiece.height < space.y + space.height then
        [⟨space.x, placedPiece.y + placedPiece.height, space.width,
          space.y + space.height - (placedPiece.y + placedPiece.height)⟩]
       else [])
    else if placedPiece.y < space.y + space.height ∧
        placedPiece.y + placedPiece.height > space.y then
      (if placedPiece.x > space.x then
        [⟨space.x, space.y, placedPiece.x - space.x, space.height⟩] else []) ++
      (if placedPiece.x + placedPiece.width < space.x + space.width then
        [⟨placedPiece.x + placedPiece.width, space.y,
          space.x + space.width - (placedPiece.x + placedPiece.width),
          space.height⟩] else [])
    else [space]

/-- **C6** (amended).  The kernel `splitFreeSpace` (`splitSpace` of
`src/unnamed/part_000`, textually repeated inside the beam-search class)
behaves as claimed: every rectangle of the result has width and height
strictly greater than `kerf`; every result rectangle descends from some input
free rectangle; an overlapping free rectangle contributes at most four
children, each clipped to that free rectangle's bounds and disjoint from the
used rectangle; the children of an overlapping free rectangle cover all of it
except the used rectangle's footprint; and a non-overlapping free rectangle
passes through unchanged (subject to the same sliver filter).  The private
First-Fit-Decreasing copy violates the kerf clause (see the counterexample):
it ignores `kerf` entirely, so the claim holds only for the kernel version. -/
theorem C6_kernel_splitSpace_spec :
    (∀ (spaces : List Rect) (u : Rect) (kerf : ℚ) (r : Rect),
        r ∈ splitSpace spaces u kerf → kerf < r.width ∧ kerf < r.height) ∧
    (∀ (spaces : List Rect) (u : Rect) (kerf : ℚ) (r : Rect),
        r ∈ splitSpace spaces u kerf → ∃ s ∈ spaces, r ∈ splitChildren u s) ∧
    (∀ u s : Rect, (splitChildren u s).length ≤ 4) ∧
    (∀ u s r : Rect, r ∈ splitChildren u s →
        rectInside r s ∧ rectanglesOverlap r u = false) ∧
    (∀ (u s : Rect) (px py : ℚ), splitOverlaps u s = true →
        rectMem s px py → ¬ rectMem u px py →
        ∃ r ∈ splitChildren u s, rectMem r px py) ∧
    (∀ (spaces : List Rect) (u : Rect) (kerf : ℚ) (s : Rect),
        s ∈ spaces → splitOverlaps u s = false →
        kerf < s.width → kerf < s.height → s ∈ splitSpace spaces u kerf) :=
  ⟨fun _ _ _ _ h => mem_splitSpace_kerf h,
   fun _ _ _ _ h => mem_splitSpace_decompose h,
   fun u s => splitChildren_length_le u s,
   fun _ _ _ h => ⟨mem_splitChildren_inside h, mem_splitChildren_not_overlap h⟩,
   fun _ _ _ _ hov hs hu => splitChildren_cover hov hs hu,
   fun _ _ _ _ hs hov hw hh => splitSpace_pass_through hs hov hw hh⟩

/-- Witness for C6: the kernel split of a 100×100 free rectangle around a
40×40 used rectangle in its corner yields the right-hand strip, which is
wider and taller than `kerf = 0`, descends from the original free rectangle,
and the point `(70, 10)` outside the used rectangle is covered. -/
theorem C6_kernel_splitSpace_spec_witness :
    ((0 : ℚ) < (⟨40, 0, 60, 100⟩ : Rect).width ∧
      (0 : ℚ) < (⟨40, 0, 60, 100⟩ : Rect).height) ∧
    (∃ s ∈ [(⟨0, 0, 100, 100⟩ : Rect)],
      (⟨40, 0, 60, 100⟩ : Rect) ∈ splitChildren ⟨0, 0, 40, 40⟩ s) ∧
    (∃ r ∈ splitChildren (⟨0, 0, 40, 40⟩ : Rect) ⟨0, 0, 100, 100⟩,
      rectMem r 70 10) :=
  ⟨C6_kernel_splitSpace_spec.1 [⟨0, 0, 100, 100⟩] ⟨0, 0, 40, 40⟩ 0
      ⟨40, 0, 60, 100⟩ (by decide),
   C6_kernel_splitSpace_spec.2.1 [⟨0, 0, 100, 100⟩] ⟨0, 0, 40, 40⟩ 0
      ⟨40, 0, 60, 100⟩ (by decide),
   C6_kernel_splitSpace_spec.2.2.2.2.1 ⟨0, 0, 40, 40⟩ ⟨0, 0, 100, 100⟩ 70 10
      (by decide) (by decide) (by decide)⟩

/-- Counterexample for C6 as frozen: the First-Fit-Decreasing private
`splitSpace` — one of the two code locations the claim cites — keeps a child
strip of height `1` although `kerf = 5`, so "every resulting child whose
width ≤ kerf or height ≤ kerf is discarded" is false for it. -/
theorem C6_counterexample_ffd_keeps_sliver :
    ffdSplitSpace [⟨0, 0, 100, 100⟩] ⟨0, 0, 100, 99⟩ 5 = [⟨0, 99, 100, 1⟩] ∧
    (⟨0, 99, 100, 1⟩ : Rect).height ≤ 5 := by
  decide

/-! ## C7 — `sortPiecesByPriority` -/

/-- A 1×100 piece: area 100, the largest area in the C7 failing input. -/
def pieceTallNarrow : OptimizationPiece :=
  { id := "tall", width := 1, height := 100, quantity := 1 }

/-- A 2×1 piece: area 2, but wider than `pieceTallNarrow`. -/
def pieceShortWide : OptimizationPiece :=
  { id := "wide", width := 2, height := 1, quantity := 1 }

/-- **C7**.  The claim (and the source's own comment, "Secondary sort by area
(larger area first)") requires the secondary key to be area descending, but
the comparator computes `(b.width * b.height) - (a.width * b.height)` — the
`a` term multiplies `a.width` by `b.height` — which orders by width, not
area.  On two equal-priority pieces where the larger-area piece is narrower,
the sort puts the smaller-area piece first: with `tall` = 1×100 (area 100)
and `wide` = 2×1 (area 2), `sortPiecesByPriority` returns `[wide, tall]`
although area-descending order is `[tall, wide]`. -/
theorem C7_sort_orders_by_width_not_area :
    sortPiecesByPriority [pieceTallNarrow, pieceShortWide] =
      [pieceShortWide, pieceTallNarrow] ∧
    pieceTallNarrow.priority = pieceShortWide.priority ∧
    pieceShortWide.width * pieceShortWide.height <
      pieceTallNarrow.width * pieceTallNarrow.height := by
  decide

/-! ## C8 — `expandPieces` -/

theorem expandPieces_length (pieces : List OptimizationPiece) :
    (expandPieces pieces).length =
      (pieces.map (fun p => p.quantity)).sum := by
  induction pieces with
  | nil => rfl
  | cons p rest ih =>
    simp only [expandPieces, List.flatMap_cons, List.length_append,
      List.length_replicate, List.map_cons, List.sum_cons] at ih ⊢
    rw [ih]

theorem mem_expandPieces {pieces : List OptimizationPiece}
    {u : OptimizationPiece} (hu : u ∈ expandPieces pieces) :
    ∃ p ∈ pieces, u = { p with quantity := 1 } := by
  unfold expandPieces at hu
  simp only [List.mem_flatMap] at hu
  obtain ⟨p, hp, hmem⟩ := hu
  exact ⟨p, hp, List.eq_of_mem_replicate hmem⟩

/-- **C8** (amended).  `expandPieces` replaces each piece of quantity `N` by
`N` unit pieces of quantity 1, so the output length is the sum of the input
quantities, and every produced unit piece is an exact copy of its source
piece apart from the quantity field.  The copies carry **no** instance key:
distinct instances of one source piece are identical records (see the
counterexample), so they cannot be told apart when computing unused pieces. -/
theorem C8_expandPieces_spec :
    (∀ pieces : List OptimizationPiece,
      (expandPieces pieces).length = (pieces.map (fun p => p.quantity)).sum) ∧
    (∀ (pieces : List OptimizationPiece) (u : OptimizationPiece),
      u ∈ expandPieces pieces → ∃ p ∈ pieces, u = { p with quantity := 1 }) :=
  ⟨expandPieces_length, fun _ _ hu => mem_expandPieces hu⟩

/-- A quantity-2 piece used by the C8 concrete statements. -/
def pieceQtyTwo : OptimizationPiece :=
  { id := "p", width := 3, height := 4, quantity := 2 }

/-- Witness for C8 at a concrete input: expanding one piece of quantity 2
yields a list of length 2, and the produced unit piece arises from the source
piece with quantity forced to 1. -/
theorem C8_expandPieces_spec_witness :
    (expandPieces [pieceQtyTwo]).length =
      ([pieceQtyTwo].map (fun p : OptimizationPiece => p.quantity)).sum ∧
    ∃ p ∈ [pieceQtyTwo],
      ({ pieceQtyTwo with quantity := 1 } : OptimizationPiece) =
        { p with quantity := 1 } :=
  ⟨C8_expandPieces_spec.1 [pieceQtyTwo],
   C8_expandPieces_spec.2 [pieceQtyTwo] { pieceQtyTwo with quantity := 1 }
     (by decide)⟩

/-- Counterexample for C8 as frozen: the two unit pieces produced from one
piece of quantity 2 are equal records — there is no generated instance key
distinguishing them, so the expanded list has duplicates. -/
theorem C8_counterexample_no_instance_key :
    expandPieces [pieceQtyTwo] =
      [{ pieceQtyTwo with quantity := 1 }, { pieceQtyTwo with quantity := 1 }] ∧
    ¬ (expandPieces [pieceQtyTwo]).Nodup := by
  decide

/-! ## First-Fit-Decreasing (`lib/algorithms/first-fit-decreasing.ts`) -/

/-- The per-algorithm `Sheet` record (placed pieces plus free space). -/
structure FFDSheet where
  placedPieces : List PlacedPiece
  availableSpace : List Rect
deriving DecidableEq

/-- The fields `runOptimization` computes (`Omit<AlgorithmResult,
'executionTime' | 'algorithm'>`); `execute` adds the algorithm name. -/
structure PartialResult where
  placedPieces : List PlacedPiece
  unusedPieces : List OptimizationPiece
  efficiency : ℚ
  totalArea : ℚ
  usedArea : ℚ
  wastedArea : ℚ
  cuts : List CutInstruction
  sheetCount : ℕ
deriving DecidableEq

/-- Attach the algorithm name (what `execute` does around `runOptimization`;
the wall-clock `executionTime` is not modelled). -/
def PartialResult.withAlgorithm (r : PartialResult) (name : String) :
    AlgorithmResult :=
  ⟨r.placedPieces, r.unusedPieces, r.efficiency, r.totalArea, r.usedArea,
   r.wastedArea, r.cuts, r.sheetCount, name⟩

/-- One candidate inside `findBestFit`: the placement rectangle (at the
space's corner, with the piece's — possibly swapped — dimensions) and its
waste `(freeW - pieceW) * (freeH - pieceH)`. -/
def fitCandidate (piece : OptimizationPiece) (space : Rect) (rotated : Bool) :
    Option (Rect × ℚ) :=
  if rotated then
    if piece.height ≤ space.width ∧ piece.width ≤ space.height then
      some (⟨space.x, space.y, piece.height, piece.width⟩,
        (space.width - piece.height) * (space.height - piece.width))
    else none
  else
    if piece.width ≤ space.width ∧ piece.height ≤ space.height then
      some (⟨space.x, space.y, piece.width, piece.height⟩,
        (space.width - piece.width) * (space.height - piece.height))
    else none

/-- The scan of `findBestFit` over the spaces: a candidate replaces the
current best only when its waste is strictly smaller. -/
def findBestFitAux (piece : OptimizationPiece) (rotated : Bool) :
    List Rect → Option (Rect × ℚ) → Option (Rect × ℚ)
  | [], best => best
  | s :: rest, best =>
    match fitCandidate piece s rotated, best with
    | none, b => findBestFitAux piece rotated rest b
    | some c, none => findBestFitAux piece rotated rest (some c)
    | some c, some b =>
      findBestFitAux piece rotated rest (if c.2 < b.2 then some c else some b)

/-- `FirstFitDecreasingAlgorithm.findBestFit`. -/
def findBestFit (piece : OptimizationPiece) (availableSpaces : List Rect)
    (rotated : Bool) : Option Rect :=
  (findBestFitAux piece rotated availableSpaces none).map Prod.fst

/-- The `PlacedPiece` record `runOptimization` builds from a `bestFit`. -/
def mkPlaced (piece : OptimizationPiece) (bestFit : Rect) (rotated : Bool)
    (sheetNumber : ℕ) : PlacedPiece :=
  { id := piece.id, x := bestFit.x, y := bestFit.y, width := bestFit.width,
    height := bestFit.height, rotated := rotated, sheetNumber := sheetNumber,
    label := piece.label }

/-- The inner sheet loop of `FirstFitDecreasingAlgorithm.runOptimization`:
scan the open sheets in order, trying the piece unrotated and then — when
`piece.canRotate` — rotated on each sheet, and return the updated sheet list
on the first success. -/
def ffdTryPlaceOnSheets (kerf : ℚ) (piece : OptimizationPiece) :
    List FFDSheet → ℕ → Option (List FFDSheet)
  | [], _ => none
  | sheet :: rest, i =>
    match findBestFit piece sheet.availableSpace false with
    | some bestFit =>
      some ({ placedPieces := sheet.placedPieces ++ [mkPlaced piece bestFit false i],
              availableSpace := ffdSplitSpace sheet.availableSpace bestFit kerf }
            :: rest)
    | none =>
      if piece.canRotate then
        match findBestFit piece sheet.availableSpace true with
        | some bestFit =>
          some ({ placedPieces :=
                    sheet.placedPieces ++ [mkPlaced piece bestFit true i],
                  availableSpace := ffdSplitSpace sheet.availableSpace bestFit kerf }
                :: rest)
        | none => (ffdTryPlaceOnSheets kerf piece rest (i + 1)).map (sheet :: ·)
      else (ffdTryPlaceOnSheets kerf piece rest (i + 1)).map (sheet :: ·)

/-- One iteration of the piece loop of `runOptimization`: place on an open
sheet if possible, otherwise open a fresh sheet and place there (unrotated
only); a piece that does not fit a fresh sheet leaves the state unchanged. -/
def ffdPlacePiece (panel : OptimizationPanel) (kerf : ℚ)
    (sheets : List FFDSheet) (piece : OptimizationPiece) : List FFDSheet :=
  match ffdTryPlaceOnSheets kerf piece sheets 0 with
  | some sheets' => sheets'
  | none =>
    let freshSpace : List Rect := [⟨0, 0, panel.width, panel.height⟩]
    match findBestFit piece freshSpace false with
    | some bestFit =>
      sheets ++ [{ placedPieces := [mkPlaced piece bestFit false sheets.length],
                   availableSpace := ffdSplitSpace freshSpace bestFit kerf }]
    | none => sheets

/-- The x / y cut positions of `generateCuts` (shared, textually, by the
first-fit, beam-search and hybrid classes): collect the piece edges into a
set, sort ascending, then emit a cut at every position `1 ≤ i ≤ len - 2`
whose distance to its predecessor exceeds the kerf.  The JavaScript `Set` is
modelled as deduplication; the subsequent numeric sort makes the collection
order irrelevant. -/
def cutPositions (positions : List ℚ) (kerf : ℚ) : List ℚ :=
  let sorted := positions.dedup.insertionSort (· ≤ ·)
  ((sorted.zip sorted.tail).take (sorted.length - 2)).filterMap
    fun pq => if pq.2 - pq.1 > kerf then some pq.2 else none

/-- `generateCuts` of the first-fit / beam-search / hybrid classes. -/
def generateCuts (placedPieces : List PlacedPiece) (kerf : ℚ) :
    List CutInstruction :=
  if placedPieces.length = 0 then []
  else
    (cutPositions (placedPieces.flatMap fun p => [p.x, p.x + p.width]) kerf).map
      (fun pos => { isVertical := true, position := pos }) ++
    (cutPositions (placedPieces.flatMap fun p => [p.y, p.y + p.height]) kerf).map
      (fun pos => { isVertical := false, position := pos })

/-- `FirstFitDecreasingAlgorithm.runOptimization`: re-sort the received
pieces by area descending (stable), fold the placement step over them from a
single empty sheet, then assemble the result.  `unusedPieces` keeps an input
piece only when **no** placed piece shares its `id` — instances of one source
piece are conflated, as in the source. -/
def ffdRunOptimization (pieces : List OptimizationPiece)
    (panel : OptimizationPanel) (settings : OptimizationSettings) :
    PartialResult :=
  let sortedPieces := pieces.insertionSort
    fun a b => b.width * b.height - a.width * a.height ≤ 0
  let sheets := sortedPieces.foldl (ffdPlacePiece panel settings.kerf)
    [{ placedPieces := [], availableSpace := [⟨0, 0, panel.width, panel.height⟩] }]
  let allPlacedPieces := sheets.flatMap (·.placedPieces)
  let unusedPieces := pieces.filter
    fun piece => ¬ (allPlacedPieces.any fun placed => placed.id = piece.id)
  let totalArea := panel.width * panel.height * sheets.length
  let usedArea := (allPlacedPieces.map fun p => p.width * p.height).sum
  { placedPieces := allPlacedPieces
    unusedPieces := unusedPieces
    efficiency := usedArea / totalArea
    totalArea := totalArea
    usedArea := usedArea
    wastedArea := totalArea - usedArea
    cuts := generateCuts allPlacedPieces settings.kerf
    sheetCount := sheets.length }

/-- `FirstFitDecreasingAlgorithm.execute`: require a panel, expand and
priority-sort the pieces, run the optimization, and stamp the name. -/
def ffdExecute (pieces : List OptimizationPiece)
    (panels : List OptimizationPanel) (settings : OptimizationSettings) :
    Except String AlgorithmResult :=
  match panels with
  | [] => .error "No panels provided"
  | panel :: _ =>
    .ok ((ffdRunOptimization (sortPiecesByPriority (expandPieces pieces))
      panel settings).withAlgorithm "first_fit_decreasing")

/-! ## First-Fit-Decreasing invariants

With the `else if` splitter every free space of a first-fit sheet spans the
full panel width, `findBestFit` always places at a space's corner, and each
split leaves at most the single full-width band below the placement: a sheet
is always a vertical stack of pieces at `x = 0` with at most one band of free
space underneath. -/

/-- Total height of a stack of placed pieces. -/
def heightsSum (placed : List PlacedPiece) : ℚ :=
  (placed.map (·.height)).sum

theorem heightsSum_nil : heightsSum [] = 0 := rfl

theorem heightsSum_cons (p : PlacedPiece) (l : List PlacedPiece) :
    heightsSum (p :: l) = p.height + heightsSum l := by
  simp [heightsSum]

theorem heightsSum_append (l : List PlacedPiece) (q : PlacedPiece) :
    heightsSum (l ++ [q]) = heightsSum l + q.height := by
  simp [heightsSum]

/-- The pieces of one first-fit sheet, stacked from ordinate `y` downward in
placement order: each sits at `x = 0`, has positive dimensions, fits the
panel width `W`, and carries the sheet index `idx`. -/
def stackedFrom (W : ℚ) (idx : ℕ) : ℚ → List PlacedPiece → Prop
  | _, [] => True
  | y, p :: rest => p.x = 0 ∧ p.y = y ∧ 0 < p.width ∧ p.width ≤ W ∧
      0 < p.height ∧ p.sheetNumber = idx ∧
      stackedFrom W idx (y + p.height) rest

theorem stackedFrom_append {W : ℚ} {idx : ℕ} {l : List PlacedPiece}
    {q : PlacedPiece} :
    ∀ {y : ℚ}, stackedFrom W idx y l → q.x = 0 → q.y = y + heightsSum l →
    0 < q.width → q.width ≤ W → 0 < q.height → q.sheetNumber = idx →
    stackedFrom W idx y (l ++ [q]) := by
  induction l with
  | nil =>
    intro y _ h1 h2 h3 h4 h5 h6
    exact ⟨h1, by rw [h2, heightsSum_nil, add_zero], h3, h4, h5, h6, trivial⟩
  | cons p rest ih =>
    intro y hst h1 h2 h3 h4 h5 h6
    obtain ⟨a1, a2, a3, a4, a5, a6, a7⟩ := hst
    refine ⟨a1, a2, a3, a4, a5, a6, ih a7 h1 ?_ h3 h4 h5 h6⟩
    rw [h2, heightsSum_cons]; ring

theorem stackedFrom_heightsSum_nonneg {W : ℚ} {idx : ℕ} :
    ∀ {l : List PlacedPiece} {y : ℚ}, stackedFrom W idx y l →
      0 ≤ heightsSum l := by
  intro l
  induction l with
  | nil => intro y _; simp [heightsSum_nil]
  | cons p rest ih =>
    intro y hst
    obtain ⟨_, _, _, _, a5, _, a7⟩ := hst
    rw [heightsSum_cons]
    have := ih a7
    linarith

theorem stackedFrom_bounds {W : ℚ} {idx : ℕ} {l : List PlacedPiece} :
    ∀ {y : ℚ}, stackedFrom W idx y l → ∀ p ∈ l,
      p.x = 0 ∧ y ≤ p.y ∧ p.y + p.height ≤ y + heightsSum l ∧
      0 < p.width ∧ p.width ≤ W ∧ 0 < p.height ∧ p.sheetNumber = idx := by
  induction l with
  | nil => intro y _ p hp; exact absurd hp (List.not_mem_nil p)
  | cons a rest ih =>
    intro y hst p hp
    obtain ⟨a1, a2, a3, a4, a5, a6, a7⟩ := hst
    have hrest : 0 ≤ heightsSum rest := stackedFrom_heightsSum_nonneg a7
    rcases List.mem_cons.mp hp with rfl | hp
    · refine ⟨a1, le_of_eq a2.symm, ?_, a3, a4, a5, a6⟩
      rw [a2, heightsSum_cons]; linarith
    · obtain ⟨b1, b2, b3, b4, b5, b6, b7⟩ := ih a7 p hp
      refine ⟨b1, by linarith, ?_, b4, b5, b6, b7⟩
      rw [heightsSum_cons]; linarith

theorem stackedFrom_pairwise {W : ℚ} {idx : ℕ} {l : List PlacedPiece} :
    ∀ {y : ℚ}, stackedFrom W idx y l →
      l.Pairwise (fun p q => p.y + p.height ≤ q.y) := by
  induction l with
  | nil => intro y _; exact List.Pairwise.nil
  | cons a rest ih =>
    intro y hst
    obtain ⟨a1, a2, a3, a4, a5, a6, a7⟩ := hst
    refine List.Pairwise.cons ?_ (ih a7)
    intro q hq
    obtain ⟨_, hq2, _⟩ := stackedFrom_bounds a7 q hq
    rw [a2]; linarith

theorem stackedFrom_area {W : ℚ} {idx : ℕ} {l : List PlacedPiece} :
    ∀ {y : ℚ}, stackedFrom W idx y l →
      (l.map fun p => p.width * p.height).sum ≤ W * heightsSum l := by
  induction l with
  | nil => intro y _; simp [heightsSum_nil]
  | cons p rest ih =>
    intro y hst
    obtain ⟨_, _, a3, a4, a5, _, a7⟩ := hst
    have h1 : p.width * p.height ≤ W * p.height :=
      mul_le_mul_of_nonneg_right a4 (le_of_lt a5)
    have h2 := ih a7
    rw [List.map_cons, List.sum_cons, heightsSum_cons, mul_add]
    linarith

/-- Invariant of one first-fit sheet carrying index `idx`: its placed pieces
form a stack from `y = 0`, fitting the panel height, and its free space is
either a single full-width band from the top of the stack to the bottom of
the panel, or empty. -/
def FFDInv (panel : OptimizationPanel) (idx : ℕ) (sh : FFDSheet) : Prop :=
  stackedFrom panel.width idx 0 sh.placedPieces ∧
  heightsSum sh.placedPieces ≤ panel.height ∧
  ((∃ b : Rect, sh.availableSpace = [b] ∧ b.x = 0 ∧
      b.y = heightsSum sh.placedPieces ∧ b.width = panel.width ∧
      b.y + b.height = panel.height ∧ 0 < b.height) ∨
    sh.availableSpace = [])

/-- Invariant of the sheet list from index `i` on. -/
def FFDInvFrom (panel : OptimizationPanel) : ℕ → List FFDSheet → Prop
  | _, [] => True
  | i, sh :: rest => FFDInv panel i sh ∧ FFDInvFrom panel (i + 1) rest

theorem findBestFit_nil (piece : OptimizationPiece) (rotated : Bool) :
    findBestFit piece [] rotated = none := rfl

theorem findBestFit_single (piece : OptimizationPiece) (s : Rect)
    (rotated : Bool) :
    findBestFit piece [s] rotated = (fitCandidate piece s rotated).map Prod.fst := by
  cases h : fitCandidate piece s rotated <;>
    simp [findBestFit, findBestFitAux, h]

/-- Placing a piece on a sheet that satisfies the invariant preserves it:
the placement lands at the band's corner and the split leaves the band below
(or nothing). -/
theorem FFDInv_place {panel : OptimizationPanel} {idx : ℕ} {sh : FFDSheet}
    {piece : OptimizationPiece} {rotated : Bool} {bestFit : Rect} {kerf : ℚ}
    (hinv : FFDInv panel idx sh) (hw : 0 < piece.width) (hh : 0 < piece.height)
    (hbf : findBestFit piece sh.availableSpace rotated = some bestFit) :
    FFDInv panel idx
      { placedPieces := sh.placedPieces ++ [mkPlaced piece bestFit rotated idx],
        availableSpace := ffdSplitSpace sh.availableSpace bestFit kerf } := by
  obtain ⟨hstack, hsum, hspace | hspace⟩ := hinv
  swap
  · rw [hspace, findBestFit_nil] at hbf; exact absurd hbf (by simp)
  obtain ⟨b, hb, hbx, hby, hbw, hbh, hbpos⟩ := hspace
  rw [hb, findBestFit_single] at hbf
  -- the successful fit pins down `bestFit`
  have hfit : ∃ bw bh : ℚ, bestFit = ⟨b.x, b.y, bw, bh⟩ ∧ 0 < bw ∧ bw ≤ b.width ∧
      0 < bh ∧ bh ≤ b.height := by
    cases rotated
    · simp only [fitCandidate, Bool.false_eq_true, if_false] at hbf
      split at hbf
      · next hc =>
        refine ⟨piece.width, piece.height, ?_, hw, hc.1, hh, hc.2⟩
        simpa using hbf.symm
      · simp at hbf
    · simp only [fitCandidate, if_true] at hbf
      split at hbf
      · next hc =>
        refine ⟨piece.height, piece.width, ?_, hh, hc.1, hw, hc.2⟩
        simpa using hbf.symm
      · simp at hbf
  obtain ⟨bw, bh, rfl, hbw0, hbwle, hbh0, hbhle⟩ := hfit
  have hW : 0 < panel.width := lt_of_lt_of_le hbw0 (hbw ▸ hbwle)
  constructor
  · -- the new piece extends the stack
    apply stackedFrom_append hstack
    · show b.x = 0
      exact hbx
    · show b.y = 0 + heightsSum sh.placedPieces
      rw [hby]; ring
    · exact hbw0
    · show bw ≤ panel.width
      rw [← hbw]; exact hbwle
    · exact hbh0
    · rfl
  constructor
  · -- the stack still fits the panel height
    rw [heightsSum_append]
    show heightsSum sh.placedPieces + bh ≤ panel.height
    have hH : heightsSum sh.placedPieces + b.height = panel.height := by
      rw [← hby]; exact hbh
    linarith
  · -- the split leaves the band below the new piece, or nothing
    rw [hb]
    show (∃ b' : Rect,
        ffdSplitSpace [b] ⟨b.x, b.y, bw, bh⟩ kerf = [b'] ∧ b'.x = 0 ∧
        b'.y = heightsSum (sh.placedPieces ++ [mkPlaced piece ⟨b.x, b.y, bw, bh⟩ rotated idx]) ∧
        b'.width = panel.width ∧ b'.y + b'.height = panel.height ∧ 0 < b'.height) ∨
      ffdSplitSpace [b] ⟨b.x, b.y, bw, bh⟩ kerf = []
    have hxcond : b.x < b.x + b.width ∧ b.x + bw > b.x := by
      constructor <;> [linarith; linarith]
    by_cases hbelow : b.y + bh < b.y + b.height
    · left
      refine ⟨⟨b.x, b.y + bh, b.width, b.y + b.height - (b.y + bh)⟩, ?_, ?_, ?_, ?_, ?_, ?_⟩
      · unfold ffdSplitSpace
        simp only [List.flatMap_cons, List.flatMap_nil, List.append_nil]
        rw [if_pos hxcond]
        rw [if_neg (lt_irrefl b.y), if_pos hbelow]
        rfl
      · exact hbx
      · rw [heightsSum_append]
        show b.y + bh = heightsSum sh.placedPieces + bh
        rw [hby]
      · exact hbw
      · show b.y + bh + (b.y + b.height - (b.y + bh)) = panel.height
        rw [← hbh]; ring
      · show 0 < b.y + b.height - (b.y + bh)
        linarith
    · right
      unfold ffdSplitSpace
      simp only [List.flatMap_cons, List.flatMap_nil, List.append_nil]
      rw [if_pos hxcond]
      rw [if_neg (lt_irrefl b.y), if_neg hbelow]
      rfl

theorem FFDInvFrom_append_single {panel : OptimizationPanel} {sh : FFDSheet} :
    ∀ {sheets : List FFDSheet} {i : ℕ}, FFDInvFrom panel i sheets →
      FFDInv panel (i + sheets.length) sh →
      FFDInvFrom panel i (sheets ++ [sh]) := by
  intro sheets
  induction sheets with
  | nil => intro i _ hsh; exact ⟨by simpa using hsh, trivial⟩
  | cons a rest ih =>
    intro i hinv hsh
    obtain ⟨ha, hrest⟩ := hinv
    refine ⟨ha, ih hrest ?_⟩
    have : i + (a :: rest).length = i + 1 + rest.length := by
      simp [List.length_cons]; ring
    rwa [this] at hsh

theorem ffdTryPlaceOnSheets_inv {panel : OptimizationPanel} {kerf : ℚ}
    {piece : OptimizationPiece} (hw : 0 < piece.width) (hh : 0 < piece.height) :
    ∀ {sheets : List FFDSheet} {i : ℕ} {sheets' : List FFDSheet},
      FFDInvFrom panel i sheets →
      ffdTryPlaceOnSheets kerf piece sheets i = some sheets' →
      FFDInvFrom panel i sheets' := by
  intro sheets
  induction sheets with
  | nil => intro i sheets' _ h; exact absurd h (by simp [ffdTryPlaceOnSheets])
  | cons sheet rest ih =>
    intro i sheets' hinv hstep
    obtain ⟨hsheet, hrest⟩ := hinv
    unfold ffdTryPlaceOnSheets at hstep
    cases hfit : findBestFit piece sheet.availableSpace false with
    | some bestFit =>
      rw [hfit] at hstep
      simp only [Option.some.injEq] at hstep
      subst hstep
      exact ⟨FFDInv_place hsheet hw hh hfit, hrest⟩
    | none =>
      rw [hfit] at hstep
      by_cases hrot : piece.canRotate
      all_goals simp only [hrot, if_true, if_false, Bool.false_eq_true] at hstep
      · cases hfitR : findBestFit piece sheet.availableSpace true with
        | some bestFit =>
          rw [hfitR] at hstep
          simp only [Option.some.injEq] at hstep
          subst hstep
          exact ⟨FFDInv_place hsheet hw hh hfitR, hrest⟩
        | none =>
          rw [hfitR] at hstep
          cases hrec : ffdTryPlaceOnSheets kerf piece rest (i + 1) with
          | some rest' =>
            rw [hrec] at hstep
            simp only [Option.map_some', Option.some.injEq] at hstep
            subst hstep
            exact ⟨hsheet, ih hrest hrec⟩
          | none => rw [hrec] at hstep; exact absurd hstep (by simp)
      · cases hrec : ffdTryPlaceOnSheets kerf piece rest (i + 1) with
        | some rest' =>
          rw [hrec] at hstep
          simp only [Option.map_some', Option.some.injEq] at hstep
          subst hstep
          exact ⟨hsheet, ih hrest hrec⟩
        | none => rw [hrec] at hstep; exact absurd hstep (by simp)

theorem ffdPlacePiece_inv {panel : OptimizationPanel} {kerf : ℚ}
    {piece : OptimizationPiece} {sheets : List FFDSheet}
    (hinv : FFDInvFrom panel 0 sheets) (hw : 0 < piece.width)
    (hh : 0 < piece.height) (hH : 0 < panel.height) :
    FFDInvFrom panel 0 (ffdPlacePiece panel kerf sheets piece) := by
  unfold ffdPlacePiece
  cases htry : ffdTryPlaceOnSheets kerf piece sheets 0 with
  | some sheets' => exact ffdTryPlaceOnSheets_inv hw hh hinv htry
  | none =>
    dsimp only
    cases hfit : findBestFit piece [⟨0, 0, panel.width, panel.height⟩] false with
    | none => exact hinv
    | some bestFit =>
      apply FFDInvFrom_append_single hinv
      have hfresh : FFDInv panel (0 + sheets.length)
          { placedPieces := [],
            availableSpace := [⟨0, 0, panel.width, panel.height⟩] } := by
        refine ⟨trivial, by rw [heightsSum_nil]; linarith, Or.inl ?_⟩
        exact ⟨⟨0, 0, panel.width, panel.height⟩, rfl, rfl, by rw [heightsSum_nil],
          rfl, by show (0 : ℚ) + panel.height = panel.height; ring, hH⟩
      have := @FFDInv_place panel (0 + sheets.length)
        { placedPieces := [],
          availableSpace := [⟨0, 0, panel.width, panel.height⟩] }
        piece false bestFit kerf hfresh hw hh hfit
      simpa using this

theorem ffdFold_inv {panel : OptimizationPanel} {kerf : ℚ}
    (hH : 0 < panel.height) :
    ∀ {pieces : List OptimizationPiece} {sheets : List FFDSheet},
      FFDInvFrom panel 0 sheets →
      (∀ p ∈ pieces, 0 < p.width ∧ 0 < p.height) →
      FFDInvFrom panel 0 (pieces.foldl (ffdPlacePiece panel kerf) sheets) := by
  intro pieces
  induction pieces with
  | nil => intro sheets hinv _; exact hinv
  | cons p rest ih =>
    intro sheets hinv hpos
    rw [List.foldl_cons]
    have hp := hpos p (List.mem_cons_self p rest)
    exact ih (ffdPlacePiece_inv hinv hp.1 hp.2 hH)
      fun q hq => hpos q (List.mem_cons_of_mem p hq)

/-- The invariant of the sheet list yields per-piece bounds, index lower
bounds, and pairwise non-overlap on the flattened placement list. -/
theorem ffd_flat_sound {panel : OptimizationPanel} :
    ∀ {sheets : List FFDSheet} {i : ℕ}, FFDInvFrom panel i sheets →
      (∀ p ∈ sheets.flatMap (·.placedPieces),
        insidePanel panel p.toRect ∧ i ≤ p.sheetNumber ∧
        0 < p.width ∧ 0 < p.height) ∧
      (sheets.flatMap (·.placedPieces)).Pairwise
        (fun p q => p.sheetNumber = q.sheetNumber →
          rectanglesOverlap p.toRect q.toRect = false) := by
  intro sheets
  induction sheets with
  | nil => intro i _; exact ⟨fun p hp => absurd hp (by simp), by simp⟩
  | cons sh rest ih =>
    intro i hinv
    obtain ⟨⟨hstack, hsum, _⟩, hrest⟩ := hinv
    obtain ⟨ihmem, ihpair⟩ := ih hrest
    have hmem_sh : ∀ p ∈ sh.placedPieces,
        insidePanel panel p.toRect ∧ p.sheetNumber = i ∧
        0 < p.width ∧ 0 < p.height := by
      intro p hp
      obtain ⟨b1, b2, b3, b4, b5, b6, b7⟩ := stackedFrom_bounds hstack p hp
      refine ⟨⟨?_, ?_, ?_, ?_⟩, b7, b4, b6⟩
      · show (0 : ℚ) ≤ p.x
        rw [b1]
      · show p.x + p.width ≤ panel.width
        rw [b1]; linarith
      · exact b2
      · show p.y + p.height ≤ panel.height
        linarith
    rw [List.flatMap_cons]
    constructor
    · intro p hp
      rcases List.mem_append.mp hp with hp | hp
      · obtain ⟨h1, h2, h3⟩ := hmem_sh p hp
        exact ⟨h1, le_of_eq h2.symm, h3⟩
      · obtain ⟨h1, h2, h3⟩ := ihmem p hp
        exact ⟨h1, le_trans (Nat.le_succ i) h2, h3⟩
    · rw [List.pairwise_append]
      refine ⟨?_, ihpair, ?_⟩
      · have hpw := stackedFrom_pairwise hstack
        refine hpw.imp fun {p q} hle => ?_
        intro _
        exact overlap_false_below (r := p.toRect) (u := q.toRect) hle
      · intro a ha b hb heq
        obtain ⟨_, ha2, _⟩ := hmem_sh a ha
        obtain ⟨_, hb2, _⟩ := ihmem b hb
        omega

/-- Per-sheet area bound: a stacked sheet's used area is at most one panel
area, so the flattened used area is at most `panelArea * sheetCount`. -/
theorem ffd_flat_area {panel : OptimizationPanel}
    (hW : 0 ≤ panel.width) (hH : 0 ≤ panel.height) :
    ∀ {sheets : List FFDSheet} {i : ℕ}, FFDInvFrom panel i sheets →
      ((sheets.flatMap (·.placedPieces)).map fun p => p.width * p.height).sum ≤
        panel.width * panel.height * sheets.length := by
  intro sheets
  induction sheets with
  | nil => intro i _; simp
  | cons sh rest ih =>
    intro i hinv
    obtain ⟨⟨hstack, hsum, _⟩, hrest⟩ := hinv
    have h1 : ((sh.placedPieces).map fun p => p.width * p.height).sum ≤
        panel.width * panel.height := by
      have := stackedFrom_area hstack
      have h2 : panel.width * heightsSum sh.placedPieces ≤
          panel.width * panel.height := mul_le_mul_of_nonneg_left hsum hW
      linarith
    have h3 := ih hrest
    rw [List.flatMap_cons, List.map_append, List.sum_append]
    push_cast [List.length_cons]
    ring_nf
    ring_nf at h3
    linarith

theorem ffdTryPlaceOnSheets_length {kerf : ℚ} {piece : OptimizationPiece} :
    ∀ {sheets : List FFDSheet} {i : ℕ} {sheets' : List FFDSheet},
      ffdTryPlaceOnSheets kerf piece sheets i = some sheets' →
      sheets'.length = sheets.length := by
  intro sheets
  induction sheets with
  | nil => intro i sheets' h; exact absurd h (by simp [ffdTryPlaceOnSheets])
  | cons sheet rest ih =>
    intro i sheets' hstep
    unfold ffdTryPlaceOnSheets at hstep
    cases hfit : findBestFit piece sheet.availableSpace false with
    | some bestFit =>
      rw [hfit] at hstep
      simp only [Option.some.injEq] at hstep
      subst hstep; simp
    | none =>
      rw [hfit] at hstep
      by_cases hrot : piece.canRotate
      all_goals simp only [hrot, if_true, if_false, Bool.false_eq_true] at hstep
      · cases hfitR : findBestFit piece sheet.availableSpace true with
        | some bestFit =>
          rw [hfitR] at hstep
          simp only [Option.some.injEq] at hstep
          subst hstep; simp
        | none =>
          rw [hfitR] at hstep
          cases hrec : ffdTryPlaceOnSheets kerf piece rest (i + 1) with
          | some rest' =>
            rw [hrec] at hstep
            simp only [Option.map_some', Option.some.injEq] at hstep
            subst hstep
            simp [ih hrec]
          | none => rw [hrec] at hstep; exact absurd hstep (by simp)
      · cases hrec : ffdTryPlaceOnSheets kerf piece rest (i + 1) with
        | some rest' =>
          rw [hrec] at hstep
          simp only [Option.map_some', Option.some.injEq] at hstep
          subst hstep
          simp [ih hrec]
        | none => rw [hrec] at hstep; exact absurd hstep (by simp)

theorem ffdPlacePiece_length {panel : OptimizationPanel} {kerf : ℚ}
    {sheets : List FFDSheet} {piece : OptimizationPiece} :
    sheets.length ≤ (ffdPlacePiece panel kerf sheets piece).length := by
  unfold ffdPlacePiece
  cases htry : ffdTryPlaceOnSheets kerf piece sheets 0 with
  | some sheets' => exact le_of_eq (ffdTryPlaceOnSheets_length htry).symm
  | none =>
    dsimp only
    cases findBestFit piece [⟨0, 0, panel.width, panel.height⟩] false <;> simp

theorem ffdFold_length {panel : OptimizationPanel} {kerf : ℚ} :
    ∀ {pieces : List OptimizationPiece} {sheets : List FFDSheet},
      sheets.length ≤
        (pieces.foldl (ffdPlacePiece panel kerf) sheets).length := by
  intro pieces
  induction pieces with
  | nil => intro sheets; exact le_refl _
  | cons p rest ih =>
    intro sheets
    rw [List.foldl_cons]
    exact le_trans ffdPlacePiece_length ih

/-! ## Beam-Search-Guillotine (`lib/algorithms/beam-search-guillotine.ts`) -/

/-- `BeamNode` of the source. -/
structure BeamNode where
  placedPieces : List PlacedPiece
  availableSpaces : List Rect
  pieces : List OptimizationPiece
  score : ℚ
deriving DecidableEq

/-- `BeamSearchGuillotineAlgorithm.canPlacePiece`. -/
def canPlacePiece (piece : OptimizationPiece) (space : Rect) (rotated : Bool) :
    Bool :=
  decide ((if rotated then piece.height else piece.width) ≤ space.width) &&
  decide ((if rotated then piece.width else piece.height) ≤ space.height)

/-- `BeamSearchGuillotineAlgorithm.placePiece`. -/
def placePiece (piece : OptimizationPiece) (space : Rect) (rotated : Bool)
    (sheetNumber : ℕ) : PlacedPiece :=
  { id := piece.id, x := space.x, y := space.y,
    width := if rotated then piece.height else piece.width,
    height := if rotated then piece.width else piece.height,
    rotated := rotated, sheetNumber := sheetNumber, label := piece.label }

/-- `BeamSearchGuillotineAlgorithm.calculateEfficiency` (the area of one
placed piece, despite the name). -/
def calculateEfficiency (placedPiece : PlacedPiece) : ℚ :=
  placedPiece.width * placedPiece.height

/-- Expansion of one beam node, with the source's aliasing semantics: the
space loop pushes one child per feasible placement (unrotated first, then
rotated when allowed), every child holding a reference to the **same**
`unplacedPieces` array; after the loop the source unconditionally pushes the
current piece onto that array, so every child's remaining list ends up being
`restPieces ++ [piece]` — the piece it just placed included.  A node that
cannot place its piece contributes no child at all (it is dropped, not
carried), and a node with no remaining pieces is skipped (`continue`). -/
def beamExpandNode (kerf : ℚ) (node : BeamNode) : List BeamNode :=
  match node.pieces with
  | [] => []
  | piece :: restPieces =>
    let childPieces := restPieces ++ [piece]
    node.availableSpaces.flatMap fun space =>
      (if canPlacePiece piece space false then
        [{ placedPieces := node.placedPieces ++ [placePiece piece space false 0],
           availableSpaces := splitSpace node.availableSpaces space kerf,
           pieces := childPieces,
           score := node.score +
             calculateEfficiency (placePiece piece space false 0) }]
       else []) ++
      (if piece.canRotate && canPlacePiece piece space true then
        [{ placedPieces := node.placedPieces ++ [placePiece piece space true 0],
           availableSpaces := splitSpace node.availableSpaces space kerf,
           pieces := childPieces,
           score := node.score +
             calculateEfficiency (placePiece piece space true 0) }]
       else [])

/-- One depth of the beam loop: expand every node, sort the new beam by
score descending (stable), keep the best `beamWidth`. -/
def beamStep (kerf : ℚ) (beamWidth : ℕ) (beam : List BeamNode) :
    List BeamNode :=
  ((beam.flatMap (beamExpandNode kerf)).insertionSort
    fun a b => b.score - a.score ≤ 0).take beamWidth

/-- The depth loop (`depth < maxDepth && beam.length > 0`). -/
def beamLoop (kerf : ℚ) (beamWidth : ℕ) : ℕ → List BeamNode → List BeamNode
  | 0, beam => beam
  | d + 1, beam =>
    if beam.length = 0 then beam
    else beamLoop kerf beamWidth d (beamStep kerf beamWidth beam)

/-- `BeamSearchGuillotineAlgorithm.runOptimization`: a single sheet; throws
`'No valid solution found'` when the beam is empty at the end. -/
def beamRunOptimization (pieces : List OptimizationPiece)
    (panel : OptimizationPanel) (settings : OptimizationSettings) :
    Except String PartialResult :=
  let initialNode : BeamNode :=
    { placedPieces := [],
      availableSpaces := [⟨0, 0, panel.width, panel.height⟩],
      pieces := pieces, score := 0 }
  match beamLoop settings.kerf 10 pieces.length [initialNode] with
  | [] => .error "No valid solution found"
  | bestNode :: _ =>
    let totalArea := panel.width * panel.height
    let usedArea := (bestNode.placedPieces.map fun p => p.width * p.height).sum
    .ok { placedPieces := bestNode.placedPieces,
          unusedPieces := bestNode.pieces,
          efficiency := usedArea / totalArea, totalArea := totalArea,
          usedArea := usedArea, wastedArea := totalArea - usedArea,
          cuts := generateCuts bestNode.placedPieces settings.kerf,
          sheetCount := 1 }

/-- `BeamSearchGuillotineAlgorithm.execute`. -/
def beamExecute (pieces : List OptimizationPiece)
    (panels : List OptimizationPanel) (settings : OptimizationSettings) :
    Except String AlgorithmResult :=
  match panels with
  | [] => .error "No panels provided"
  | panel :: _ =>
    (beamRunOptimization (sortPiecesByPriority (expandPieces pieces)) panel
      settings).map (·.withAlgorithm "beam_search_guillotine")

/-! ## Beam-search soundness invariant

Every free space of a beam node lies inside the panel and avoids every
placed piece; every placement lands at a free space's corner and never
leaves it, so the placed pieces stay inside the panel and pairwise
disjoint. -/

theorem insidePanel_of_rectInside {panel : OptimizationPanel} {r s : Rect}
    (hs : insidePanel panel s) (hr : rectInside r s) : insidePanel panel r := by
  obtain ⟨a1, a2, a3, a4⟩ := hs
  obtain ⟨b1, b2, b3, b4⟩ := hr
  exact ⟨by linarith, by linarith, by linarith, by linarith⟩

theorem overlap_false_of_inside_left {r s p : Rect} (hrs : rectInside r s)
    (h : rectanglesOverlap s p = false) : rectanglesOverlap r p = false := by
  cases hb : rectanglesOverlap r p with
  | false => rfl
  | true => rw [rectanglesOverlap_mono hrs hb] at h; exact absurd h (by simp)

theorem overlap_false_of_inside_right {r s q : Rect} (hqs : rectInside q s)
    (h : rectanglesOverlap r s = false) : rectanglesOverlap r q = false := by
  rw [rectanglesOverlap_comm] at h ⊢
  exact overlap_false_of_inside_left hqs h

theorem placePiece_inside {piece : OptimizationPiece} {space : Rect}
    {rotated : Bool} {n : ℕ}
    (hcan : canPlacePiece piece space rotated = true) :
    rectInside (placePiece piece space rotated n).toRect space := by
  simp only [canPlacePiece, Bool.and_eq_true, decide_eq_true_eq] at hcan
  obtain ⟨h1, h2⟩ := hcan
  simp only [placePiece, PlacedPiece.toRect, rectInside]
  refine ⟨le_refl _, ?_, le_refl _, ?_⟩ <;> linarith

/-- Invariant of one beam node. -/
def BeamInv (panel : OptimizationPanel) (node : BeamNode) : Prop :=
  (∀ s ∈ node.availableSpaces, insidePanel panel s) ∧
  (∀ s ∈ node.availableSpaces, ∀ p ∈ node.placedPieces,
    rectanglesOverlap s p.toRect = false) ∧
  (∀ p ∈ node.placedPieces,
    insidePanel panel p.toRect ∧ 0 < p.width ∧ 0 < p.height ∧
    p.sheetNumber = 0) ∧
  node.placedPieces.Pairwise
    (fun p q => rectanglesOverlap p.toRect q.toRect = false) ∧
  (∀ pc ∈ node.pieces, 0 < pc.width ∧ 0 < pc.height)

theorem beamExpandNode_inv {panel : OptimizationPanel} {kerf : ℚ}
    {node child : BeamNode} (hinv : BeamInv panel node)
    (hchild : child ∈ beamExpandNode kerf node) : BeamInv panel child := by
  obtain ⟨hsp, hdisj, hplaced, hpair, hpieces⟩ := hinv
  unfold beamExpandNode at hchild
  cases hp : node.pieces with
  | nil => rw [hp] at hchild; exact absurd hchild (by simp)
  | cons piece restPieces =>
    rw [hp] at hchild
    simp only [List.mem_flatMap, List.mem_append] at hchild
    obtain ⟨space, hspace, hmem⟩ := hchild
    have hpiece_pos := hpieces piece (by rw [hp]; exact List.mem_cons_self _ _)
    have hshape : ∃ rotated : Bool, canPlacePiece piece space rotated = true ∧
        child = { placedPieces :=
                    node.placedPieces ++ [placePiece piece space rotated 0],
                  availableSpaces := splitSpace node.availableSpaces space kerf,
                  pieces := restPieces ++ [piece],
                  score := node.score +
                    calculateEfficiency (placePiece piece space rotated 0) } := by
      rcases hmem with hmem | hmem
      · split at hmem
        · next hcan =>
          simp only [List.mem_singleton] at hmem
          exact ⟨false, hcan, hmem⟩
        · exact absurd hmem (by simp)
      · split at hmem
        · next hcan =>
          simp only [Bool.and_eq_true] at hcan
          simp only [List.mem_singleton] at hmem
          exact ⟨true, hcan.2, hmem⟩
        · exact absurd hmem (by simp)
    obtain ⟨rotated, hcan, rfl⟩ := hshape
    have hq_inside_space := placePiece_inside (n := 0) hcan
    have hq_dims : 0 < (placePiece piece space rotated 0).width ∧
        0 < (placePiece piece space rotated 0).height := by
      cases rotated
      · exact ⟨by simpa [placePiece] using hpiece_pos.1,
               by simpa [placePiece] using hpiece_pos.2⟩
      · exact ⟨by simpa [placePiece] using hpiece_pos.2,
               by simpa [placePiece] using hpiece_pos.1⟩
    refine ⟨?_, ?_, ?_, ?_, ?_⟩
    · -- new spaces inside the panel
      intro s hs
      obtain ⟨s', hs', hchild'⟩ := mem_splitSpace_decompose hs
      exact insidePanel_of_rectInside (hsp s' hs')
        (mem_splitChildren_inside hchild')
    · -- new spaces avoid every placed piece, the new one included
      intro s hs p hp
      obtain ⟨s', hs', hchild'⟩ := mem_splitSpace_decompose hs
      rcases List.mem_append.mp hp with hp | hp
      · exact overlap_false_of_inside_left (mem_splitChildren_inside hchild')
          (hdisj s' hs' p hp)
      · simp only [List.mem_singleton] at hp
        subst hp
        exact overlap_false_of_inside_right hq_inside_space
          (mem_splitChildren_not_overlap hchild')
    · -- every placed piece is inside the panel
      intro p hp
      rcases List.mem_append.mp hp with hp | hp
      · exact hplaced p hp
      · simp only [List.mem_singleton] at hp
        subst hp
        exact ⟨insidePanel_of_rectInside (hsp space hspace) hq_inside_space,
          hq_dims.1, hq_dims.2, rfl⟩
    · -- placed pieces stay pairwise disjoint
      rw [List.pairwise_append]
      refine ⟨hpair, List.pairwise_singleton _ _, ?_⟩
      intro p hp q hq
      simp only [List.mem_singleton] at hq
      subst hq
      exact overlap_false_of_inside_right hq_inside_space
        (by rw [rectanglesOverlap_comm]; exact hdisj space hspace p hp)
    · -- the remaining pieces still have positive dimensions
      intro pc hpc
      rcases List.mem_append.mp hpc with hpc | hpc
      · exact hpieces pc (by rw [hp]; exact List.mem_cons_of_mem _ hpc)
      · simp only [List.mem_singleton] at hpc
        subst hpc
        exact hpiece_pos

theorem beamStep_inv {panel : OptimizationPanel} {kerf : ℚ} {w : ℕ}
    {beam : List BeamNode} (hinv : ∀ n ∈ beam, BeamInv panel n) :
    ∀ n ∈ beamStep kerf w beam, BeamInv panel n := by
  intro n hn
  unfold beamStep at hn
  have h1 : n ∈ (beam.flatMap (beamExpandNode kerf)).insertionSort
      fun a b => b.score - a.score ≤ 0 := List.mem_of_mem_take hn
  rw [List.mem_insertionSort] at h1
  obtain ⟨node, hnode, hchild⟩ := List.mem_flatMap.mp h1
  exact beamExpandNode_inv (hinv node hnode) hchild

theorem beamLoop_inv {panel : OptimizationPanel} {kerf : ℚ} {w : ℕ} :
    ∀ {fuel : ℕ} {beam : List BeamNode}, (∀ n ∈ beam, BeamInv panel n) →
      ∀ n ∈ beamLoop kerf w fuel beam, BeamInv panel n := by
  intro fuel
  induction fuel with
  | zero => intro beam hinv; exact hinv
  | succ d ih =>
    intro beam hinv
    unfold beamLoop
    split
    · exact hinv
    · exact ih (beamStep_inv hinv)

/-! ## Area of pairwise disjoint rectangles

The beam-search accounting (`usedArea ≤ totalArea` on a single sheet) needs
the geometric fact that pairwise non-overlapping rectangles inside a panel
cannot carry more area than the panel.  The rectangles are mapped to
half-open boxes of `ℝ × ℝ` and compared through Lebesgue measure. -/

/-- The half-open point set of a rectangle, in the real plane. -/
def rectSet (r : Rect) : Set (ℝ × ℝ) :=
  (Set.Ico (r.x : ℝ) ((r.x : ℝ) + (r.width : ℝ))) ×ˢ
  (Set.Ico (r.y : ℝ) ((r.y : ℝ) + (r.height : ℝ)))

theorem rectSet_measurable (r : Rect) : MeasurableSet (rectSet r) :=
  measurableSet_Ico.prod measurableSet_Ico

theorem rectSet_volume (r : Rect) (hw : 0 ≤ r.width) :
    MeasureTheory.volume (rectSet r) =
      ENNReal.ofReal ((r.width : ℝ) * (r.height : ℝ)) := by
  rw [rectSet, MeasureTheory.Measure.volume_eq_prod,
    MeasureTheory.Measure.prod_prod, Real.volume_Ico, Real.volume_Ico,
    add_sub_cancel_left, add_sub_cancel_left,
    ← ENNReal.ofReal_mul (by exact_mod_cast hw)]

theorem rectSet_subset {panel : OptimizationPanel} {r : Rect}
    (h : insidePanel panel r) :
    rectSet r ⊆ rectSet ⟨0, 0, panel.width, panel.height⟩ := by
  obtain ⟨h1, h2, h3, h4⟩ := h
  apply Set.prod_mono
  · apply Set.Ico_subset_Ico
    · simp only [Rat.cast_zero]; exact_mod_cast h1
    · simp only [Rat.cast_zero, zero_add]; exact_mod_cast h2
  · apply Set.Ico_subset_Ico
    · simp only [Rat.cast_zero]; exact_mod_cast h3
    · simp only [Rat.cast_zero, zero_add]; exact_mod_cast h4

theorem Ico_inter_Ico_eq_empty {a b c d : ℝ} (h : b ≤ c ∨ d ≤ a) :
    Set.Ico a b ∩ Set.Ico c d = ∅ := by
  rw [Set.Ico_inter_Ico, Set.Ico_eq_empty_iff]
  rcases h with h | h
  · exact not_lt.mpr (le_trans (min_le_left _ _) (le_trans h (le_max_right _ _)))
  · exact not_lt.mpr (le_trans (min_le_right _ _) (le_trans h (le_max_left _ _)))

theorem rectSet_disjoint {r q : Rect}
    (h : rectanglesOverlap r q = false) :
    Disjoint (rectSet r) (rectSet q) := by
  have h' : (r.x + r.width ≤ q.x ∨ q.x + q.width ≤ r.x) ∨
      r.y + r.height ≤ q.y ∨ q.y + q.height ≤ r.y := by
    simp only [rectanglesOverlap, Bool.not_eq_false', Bool.or_eq_true,
      decide_eq_true_eq] at h
    tauto
  rw [Set.disjoint_iff_inter_eq_empty, rectSet, rectSet, Set.prod_inter_prod,
    Set.prod_eq_empty_iff]
  rcases h' with h' | h'
  · left
    apply Ico_inter_Ico_eq_empty
    rcases h' with h' | h'
    · left; push_cast; exact_mod_cast h'
    · right; push_cast; exact_mod_cast h'
  · right
    apply Ico_inter_Ico_eq_empty
    rcases h' with h' | h'
    · left; push_cast; exact_mod_cast h'
    · right; push_cast; exact_mod_cast h'

/-- Pairwise disjoint measurable boxes inside a container cannot carry more
measure than the container: peel the head off into `C \ head`. -/
theorem sum_rectSet_volume_le {C : Set (ℝ × ℝ)} :
    ∀ {l : List Rect}, (∀ r ∈ l, rectSet r ⊆ C) →
      l.Pairwise (fun a b => Disjoint (rectSet a) (rectSet b)) →
      (l.map fun r => MeasureTheory.volume (rectSet r)).sum ≤
        MeasureTheory.volume C := by
  intro l
  induction l generalizing C with
  | nil => intro _ _; simp
  | cons r rest ih =>
    intro hsub hpair
    have hr_sub : rectSet r ⊆ C := hsub r (List.mem_cons_self _ _)
    have hrest_sub : ∀ q ∈ rest, rectSet q ⊆ C \ rectSet r := by
      intro q hq
      have h1 : rectSet q ⊆ C := hsub q (List.mem_cons_of_mem _ hq)
      have h2 : Disjoint (rectSet r) (rectSet q) :=
        (List.pairwise_cons.mp hpair).1 q hq
      intro x hx
      exact ⟨h1 hx, fun hxr => Set.disjoint_left.mp h2 hxr hx⟩
    have hrec := ih hrest_sub (List.pairwise_cons.mp hpair).2
    rw [List.map_cons, List.sum_cons]
    calc MeasureTheory.volume (rectSet r) +
          (rest.map fun q => MeasureTheory.volume (rectSet q)).sum ≤
        MeasureTheory.volume (rectSet r) +
          MeasureTheory.volume (C \ rectSet r) := add_le_add_left hrec _
      _ = MeasureTheory.volume (rectSet r ∪ C) :=
          MeasureTheory.measure_add_diff
            (rectSet_measurable r).nullMeasurableSet C
      _ = MeasureTheory.volume C := by
          rw [Set.union_eq_self_of_subset_left hr_sub]

/-- A list helper: the `ENNReal.ofReal` of a sum of nonnegative reals is the
sum of the `ofReal`s. -/
theorem list_sum_ofReal {α : Type} (f : α → ℝ) :
    ∀ (l : List α), (∀ a ∈ l, 0 ≤ f a) →
      (l.map fun a => ENNReal.ofReal (f a)).sum =
        ENNReal.ofReal ((l.map f).sum) := by
  intro l
  induction l with
  | nil => intro _; simp
  | cons a rest ih =>
    intro hpos
    rw [List.map_cons, List.sum_cons, List.map_cons, List.sum_cons,
      ENNReal.ofReal_add (hpos a (List.mem_cons_self _ _))
        (List.sum_nonneg fun x hx => by
          obtain ⟨b, hb, rfl⟩ := List.mem_map.mp hx
          exact hpos b (List.mem_cons_of_mem _ hb)),
      ih fun b hb => hpos b (List.mem_cons_of_mem _ hb)]

theorem cast_sum_areas (l : List PlacedPiece) :
    ((((l.map fun p => p.width * p.height).sum : ℚ)) : ℝ) =
      (l.map fun p : PlacedPiece => ((p.width : ℝ) * (p.height : ℝ))).sum := by
  induction l with
  | nil => simp
  | cons p rest ih =>
    simp only [List.map_cons, List.sum_cons]
    push_cast at ih ⊢
    rw [ih]

/-- Pairwise non-overlapping placed pieces inside a panel carry at most the
panel's area. -/
theorem disjoint_pieces_area_le {panel : OptimizationPanel}
    {l : List PlacedPiece}
    (hin : ∀ p ∈ l, insidePanel panel p.toRect ∧ 0 < p.width ∧ 0 < p.height)
    (hpair : l.Pairwise
      (fun p q => rectanglesOverlap p.toRect q.toRect = false))
    (hW : 0 ≤ panel.width) (hH : 0 ≤ panel.height) :
    (l.map fun p => p.width * p.height).sum ≤ panel.width * panel.height := by
  have hsum := sum_rectSet_volume_le
    (C := rectSet ⟨0, 0, panel.width, panel.height⟩)
    (l := l.map (·.toRect))
    (by
      intro r hr
      obtain ⟨p, hp, rfl⟩ := List.mem_map.mp hr
      exact rectSet_subset (hin p hp).1)
    (by
      rw [List.pairwise_map]
      exact hpair.imp fun h => rectSet_disjoint h)
  rw [List.map_map] at hsum
  have hvol : ∀ p ∈ l, MeasureTheory.volume (rectSet p.toRect) =
      ENNReal.ofReal ((p.width : ℝ) * (p.height : ℝ)) := by
    intro p hp
    exact rectSet_volume _ (le_of_lt (hin p hp).2.1)
  rw [List.map_congr_left fun p hp => by
      show (MeasureTheory.volume ∘ rectSet ∘ PlacedPiece.toRect) p =
        ENNReal.ofReal ((p.width : ℝ) * (p.height : ℝ))
      exact hvol p hp] at hsum
  rw [rectSet_volume _ hW] at hsum
  rw [list_sum_ofReal (fun p : PlacedPiece => (p.width : ℝ) * (p.height : ℝ)) l
      (fun p hp => by
        have := hin p hp
        have h1 : (0 : ℝ) < p.width := by exact_mod_cast this.2.1
        have h2 : (0 : ℝ) < p.height := by exact_mod_cast this.2.2
        positivity)] at hsum
  have hWH : (0 : ℝ) ≤ (panel.width : ℝ) * (panel.height : ℝ) := by
    have h1 : (0 : ℝ) ≤ panel.width := by exact_mod_cast hW
    have h2 : (0 : ℝ) ≤ panel.height := by exact_mod_cast hH
    positivity
  have hreal := (ENNReal.ofReal_le_ofReal_iff hWH).mp hsum
  rw [← cast_sum_areas l] at hreal
  exact_mod_cast hreal

/-! ## Hybrid-Constructive-Local-Search (`src/unnamed/part_001`,
`hybrid-constructive-local-search.ts`)

`execute` passes the request pieces straight to `runOptimization`: the hybrid
strategy neither expands quantities nor sorts.  `state.currentSheet` is never
incremented, and a placement consumes the whole first free rectangle (the
kernel `splitSpace` is called with `usedSpace = availableSpace[0]`), so after
the first successful placement sheet 0 has no free space and the `continue`
guard skips every later piece. -/

/-- The hybrid / beam `canPlacePiece` share one formula; the hybrid state is
the same sheet record as first-fit.  Efficiency of a sheet list
(`HybridConstructiveLocalSearchAlgorithm.calculateEfficiency`). -/
def hybridEff (sheets : List FFDSheet) (panel : OptimizationPanel) : ℚ :=
  if sheets.length = 0 then 0
  else
    ((sheets.map fun sh =>
        (sh.placedPieces.map fun p => p.width * p.height).sum).sum) /
      (panel.width * panel.height * sheets.length)

/-- The sheet-scan loop of `constructivePlacement` ("Try to place on
existing sheets"): only the first free rectangle of each sheet is tried,
unrotated then rotated. -/
def hybridScanSheets (piece : OptimizationPiece) :
    List FFDSheet → ℕ → Option (List FFDSheet)
  | [], _ => none
  | sheet :: rest, i =>
    match sheet.availableSpace with
    | [] => (hybridScanSheets piece rest (i + 1)).map (sheet :: ·)
    | space0 :: _ =>
      if canPlacePiece piece space0 false then
        some ({ placedPieces :=
                  sheet.placedPieces ++ [placePiece piece space0 false i],
                availableSpace := splitSpace sheet.availableSpace space0 0 }
              :: rest)
      else if piece.canRotate && canPlacePiece piece space0 true then
        some ({ placedPieces :=
                  sheet.placedPieces ++ [placePiece piece space0 true i],
                availableSpace := splitSpace sheet.availableSpace space0 0 }
              :: rest)
      else (hybridScanSheets piece rest (i + 1)).map (sheet :: ·)

/-- The scan-or-open-new-sheet tail of the piece loop (runs only when the
current-sheet attempt did not place and did not `continue`). -/
def hybridScanOrNew (panel : OptimizationPanel)
    (sheets : List FFDSheet) (piece : OptimizationPiece) : List FFDSheet :=
  match hybridScanSheets piece sheets 0 with
  | some sheets' => sheets'
  | none =>
    if canPlacePiece piece ⟨0, 0, panel.width, panel.height⟩ false then
      sheets ++
        [{ placedPieces :=
             [placePiece piece ⟨0, 0, panel.width, panel.height⟩ false
               sheets.length],
           availableSpace :=
             splitSpace [⟨0, 0, panel.width, panel.height⟩]
               ⟨0, 0, panel.width, panel.height⟩ 0 }]
    else sheets

/-- One iteration of the piece loop of `constructivePlacement`.
`currentSheet` is always `0`.  When sheet 0 exists but its free-space list is
empty (or, vacuously, has no first element) the source `continue`s: the piece
is skipped without trying other sheets or opening a new one. -/
def hybridPlaceStep (panel : OptimizationPanel)
    (sheets : List FFDSheet) (piece : OptimizationPiece) : List FFDSheet :=
  match sheets[0]? with
  | none => hybridScanOrNew panel sheets piece
  | some currentSheet =>
    match currentSheet.availableSpace with
    | [] => sheets
    | space0 :: _ =>
      if canPlacePiece piece space0 false then
        sheets.set 0
          { placedPieces :=
              currentSheet.placedPieces ++ [placePiece piece space0 false 0],
            availableSpace :=
              splitSpace currentSheet.availableSpace space0 0 }
      else if piece.canRotate && canPlacePiece piece space0 true then
        sheets.set 0
          { placedPieces :=
              currentSheet.placedPieces ++ [placePiece piece space0 true 0],
            availableSpace :=
              splitSpace currentSheet.availableSpace space0 0 }
      else hybridScanOrNew panel sheets piece

/-- `constructivePlacement`. -/
def constructivePlacement (panel : OptimizationPanel)
    (pieces : List OptimizationPiece) : List FFDSheet :=
  pieces.foldl (hybridPlaceStep panel)
    [{ placedPieces := [],
       availableSpace := [⟨0, 0, panel.width, panel.height⟩] }]

/-- Overwrite the position of piece `k` of sheet `i` (the effect of the
in-place mutations of `localSearchImprovement`; out-of-range indices leave
the state unchanged, as the source's guards do). -/
def setPiecePos (sheets : List FFDSheet) (i k : ℕ) (x y : ℚ) :
    List FFDSheet :=
  match sheets[i]? with
  | none => sheets
  | some sh =>
    match sh.placedPieces[k]? with
    | none => sheets
    | some p =>
      sheets.set i
        { sh with placedPieces :=
            sh.placedPieces.set k { p with x := x, y := y } }

/-- The body of the innermost (`l`) loop of `localSearchImprovement`.
`newPlacements` is a shallow copy: its elements alias the placed pieces, so
the "tentative" store `newPlacements[piece1Index].pos :=
newPlacements[piece2Index].pos` mutates sheet `i`'s piece `k` in place —
`piece2Index = k + sheet1.length` addresses sheet `j`'s piece `k` (not `l`),
and the store happens only when that index is in range.  The second
destructuring assignment copies the (already overwritten) position back, a
no-op.  The "apply swap" branch repeats the same aliased pattern on `piece1`
and `piece2` and raises the `improved` flag. -/
def lsBody (panel : OptimizationPanel) (i j k l : ℕ)
    (st : List FFDSheet × Bool) : List FFDSheet × Bool :=
  let sheets := st.1
  match sheets[i]?, sheets[j]? with
  | some sheet1, some sheet2 =>
    match sheet1.placedPieces[k]?, sheet2.placedPieces[l]? with
    | some _, some _ =>
      let currentEfficiency := hybridEff [sheet1, sheet2] panel
      let sheetsT :=
        match sheet2.placedPieces[k]? with
        | some p2k => setPiecePos sheets i k p2k.x p2k.y
        | none => sheets
      let newEfficiency :=
        match sheetsT[i]?, sheetsT[j]? with
        | some s1', some s2' => hybridEff [s1', s2'] panel
        | _, _ => currentEfficiency
      if newEfficiency > currentEfficiency then
        match sheetsT[i]?, sheetsT[j]? with
        | some s1', some s2' =>
          match s1'.placedPieces[k]?, s2'.placedPieces[l]? with
          | some _, some piece2 =>
            let sheetsA := setPiecePos sheetsT i k piece2.x piece2.y
            let sheetsB :=
              match sheetsA[i]? with
              | some s1'' =>
                match s1''.placedPieces[k]? with
                | some p1'' => setPiecePos sheetsA j l p1''.x p1''.y
                | none => sheetsA
              | none => sheetsA
            (sheetsB, true)
          | _, _ => (sheetsT, true)
        | _, _ => (sheetsT, true)
      else (sheetsT, st.2)
    | _, _ => (sheets, st.2)
  | _, _ => (sheets, st.2)

/-- The `l` loop, counting `count` iterations from `l = lIdx`. -/
def lsForL (panel : OptimizationPanel) (i j k : ℕ) :
    ℕ → ℕ → List FFDSheet × Bool → List FFDSheet × Bool
  | 0, _, st => st
  | c + 1, lIdx, st => lsForL panel i j k c (lIdx + 1) (lsBody panel i j k lIdx st)

/-- The `k` loop: for each `k`, run the `l` loop over sheet `j`'s pieces. -/
def lsForK (panel : OptimizationPanel) (i j : ℕ) :
    ℕ → ℕ → List FFDSheet × Bool → List FFDSheet × Bool
  | 0, _, st => st
  | c + 1, kIdx, st =>
    let lEnd := match st.1[j]? with
      | some sheet2 => sheet2.placedPieces.length
      | none => 0
    lsForK panel i j c (kIdx + 1) (lsForL panel i j kIdx lEnd 0 st)

/-- The `j` loop (`j` from `i + 1`). -/
def lsForJ (panel : OptimizationPanel) (i : ℕ) :
    ℕ → ℕ → List FFDSheet × Bool → List FFDSheet × Bool
  | 0, _, st => st
  | c + 1, jIdx, st =>
    let kEnd := match st.1[i]? with
      | some sheet1 => sheet1.placedPieces.length
      | none => 0
    lsForJ panel i c (jIdx + 1) (lsForK panel i jIdx kEnd 0 st)

/-- The `i` loop. -/
def lsForI (panel : OptimizationPanel) :
    ℕ → ℕ → List FFDSheet × Bool → List FFDSheet × Bool
  | 0, _, st => st
  | c + 1, iIdx, st =>
    let n := st.1.length
    lsForI panel c (iIdx + 1)
      (lsForJ panel iIdx (n - (iIdx + 1)) (iIdx + 1) st)

/-- One full pass of the pair loops, starting with `improved = false`. -/
def lsPass (panel : OptimizationPanel) (sheets : List FFDSheet) :
    List FFDSheet × Bool :=
  lsForI panel sheets.length 0 (sheets, false)

/-- `localSearchImprovement`: up to 100 passes, stopping when a pass raises
no `improved` flag. -/
def localSearchImprovement (panel : OptimizationPanel) :
    ℕ → List FFDSheet → List FFDSheet
  | 0, sheets => sheets
  | fuel + 1, sheets =>
    let st := lsPass panel sheets
    if st.2 then localSearchImprovement panel fuel st.1 else st.1

/-- `HybridConstructiveLocalSearchAlgorithm.runOptimization`. -/
def hybridRunOptimization (pieces : List OptimizationPiece)
    (panel : OptimizationPanel) (settings : OptimizationSettings) :
    PartialResult :=
  let sheets := localSearchImprovement panel 100
    (constructivePlacement panel pieces)
  let allPlacedPieces := sheets.flatMap (·.placedPieces)
  let unusedPieces := pieces.filter
    fun piece => ¬ (allPlacedPieces.any fun placed => placed.id = piece.id)
  let totalArea := panel.width * panel.height * sheets.length
  let usedArea := (allPlacedPieces.map fun p => p.width * p.height).sum
  { placedPieces := allPlacedPieces
    unusedPieces := unusedPieces
    efficiency := usedArea / totalArea
    totalArea := totalArea
    usedArea := usedArea
    wastedArea := totalArea - usedArea
    cuts := generateCuts allPlacedPieces settings.kerf
    sheetCount := sheets.length }

/-- `HybridConstructiveLocalSearchAlgorithm.execute` (no expansion, no
sort). -/
def hybridExecute (pieces : List OptimizationPiece)
    (panels : List OptimizationPanel) (settings : OptimizationSettings) :
    Except String AlgorithmResult :=
  match panels with
  | [] => .error "No panels provided"
  | panel :: _ =>
    .ok ((hybridRunOptimization pieces panel settings).withAlgorithm
      "hybrid_constructive_local_search")

/-! ## Genetic search (`lib/algorithms/advanced-genetic-algorithm.ts`)

`Math.random()` is modelled as a stream `rng : ℕ → ℚ` with a cursor advanced
once per call, in source order; a draw happens exactly where the source calls
`Math.random()` (short-circuited conjunctions included). -/

/-- `GeneticIndividual` (sheetCount is a JavaScript number, kept rational). -/
structure GeneticIndividual where
  placements : List PlacedPiece
  fitness : ℚ
  sheetCount : ℚ
  efficiency : ℚ
deriving DecidableEq

/-- `AdvancedGeneticAlgorithm.evaluateIndividual`.  For a non-empty
placement list: `efficiency = usedArea / (panel area)` — the panel area of a
single sheet, although `usedArea` sums every placement — `sheetCount =
ceil(usedArea / totalArea)`, `fitness = 0.8 * efficiency + 0.2 *
(1 / sheetCount)`. -/
def evaluateIndividual (placements : List PlacedPiece)
    (panel : OptimizationPanel) : GeneticIndividual :=
  if placements.length = 0 then
    { placements := [], fitness := 0, sheetCount := 0, efficiency := 0 }
  else
    let totalArea := panel.height * panel.width
    let usedArea := (placements.map fun p => p.height * p.width).sum
    let efficiency := usedArea / totalArea
    let sheetCount : ℚ := ((Int.ceil (usedArea / totalArea) : ℤ) : ℚ)
    { placements := placements,
      fitness := efficiency * 0.8 + (1 / sheetCount) * 0.2,
      sheetCount := sheetCount, efficiency := efficiency }

/-- `AdvancedGeneticAlgorithm.tryPlacePiece`: place at the space's corner
when the (possibly swapped) dimensions fit, append the placement (always
`sheetNumber 0`), and splice the kernel split of **that space alone** into
the space list at `spaceIndex`. -/
def gTryPlacePiece (piece : OptimizationPiece) (space : Rect)
    (rotated : Bool) (kerf : ℚ) (placements : List PlacedPiece)
    (spaces : List Rect) (spaceIndex : ℕ) :
    Option (List PlacedPiece × List Rect) :=
  let pieceHeight := if rotated then piece.width else piece.height
  let pieceWidth := if rotated then piece.height else piece.width
  if pieceHeight ≤ space.height ∧ pieceWidth ≤ space.width then
    some (placements ++
        [{ id := piece.id, x := space.x, y := space.y, width := pieceWidth,
           height := pieceHeight, rotated := rotated, sheetNumber := 0,
           label := piece.label }],
      spaces.take spaceIndex ++ splitSpace [space] space kerf ++
        spaces.drop (spaceIndex + 1))
  else none

/-- The `while (!placed && spaceIndex < availableSpaces.length)` loop of
`createRandomPlacement`; the orientation is drawn only when the piece may
rotate (`piece.canRotate && Math.random() > 0.5`). -/
def crpLoop (kerf : ℚ) (piece : OptimizationPiece) (rng : ℕ → ℚ) :
    ℕ → ℕ → List PlacedPiece → List Rect → ℕ →
    (Bool × List PlacedPiece × List Rect × ℕ)
  | 0, _, placements, spaces, ix => (false, placements, spaces, ix)
  | fuel + 1, spaceIndex, placements, spaces, ix =>
    match spaces[spaceIndex]? with
    | none => (false, placements, spaces, ix)
    | some space =>
      let (rotated, ix') :=
        if piece.canRotate then (decide (rng ix > 0.5), ix + 1)
        else (false, ix)
      match gTryPlacePiece piece space rotated kerf placements spaces
          spaceIndex with
      | some (placements', spaces') => (true, placements', spaces', ix')
      | none => crpLoop kerf piece rng fuel (spaceIndex + 1) placements
          spaces ix'

/-- The per-piece body of `createRandomPlacement`: scan the spaces; if the
piece was not placed, try a fresh full-panel rectangle (`newSheet`) —
unrotated only, spliced at the end of the space list, the placement still
tagged `sheetNumber 0`. -/
def crpPiece (kerf : ℚ) (panel : OptimizationPanel) (rng : ℕ → ℚ)
    (st : List PlacedPiece × List Rect × ℕ) (piece : OptimizationPiece) :
    List PlacedPiece × List Rect × ℕ :=
  let (placements, spaces, ix) := st
  let (placed, placements', spaces', ix') :=
    crpLoop kerf piece rng spaces.length 0 placements spaces ix
  if placed then (placements', spaces', ix')
  else
    match gTryPlacePiece piece ⟨0, 0, panel.width, panel.height⟩ false kerf
        placements' spaces' spaces'.length with
    | some (placements'', spaces'') => (placements'', spaces'', ix')
    | none => (placements', spaces', ix')

/-- `AdvancedGeneticAlgorithm.createRandomPlacement`. -/
def createRandomPlacement (kerf : ℚ) (panel : OptimizationPanel)
    (rng : ℕ → ℚ) (pieces : List OptimizationPiece) (ix : ℕ) :
    List PlacedPiece × ℕ :=
  let st := pieces.foldl (crpPiece kerf panel rng)
    ([], [⟨0, 0, panel.width, panel.height⟩], ix)
  (st.1, st.2.2)

/-- `AdvancedGeneticAlgorithm.initializePopulation` (50 individuals). -/
def initializePopulation (kerf : ℚ) (panel : OptimizationPanel)
    (rng : ℕ → ℚ) (pieces : List OptimizationPiece) (ix : ℕ)
    (count : ℕ) : List GeneticIndividual × ℕ :=
  match count with
  | 0 => ([], ix)
  | c + 1 =>
    let (placements, ix') := createRandomPlacement kerf panel rng pieces ix
    let individual := evaluateIndividual placements panel
    let (rest, ix'') := initializePopulation kerf panel rng pieces ix' c
    (individual :: rest, ix'')

/-- `AdvancedGeneticAlgorithm.selectParent`: three tournament draws of
`population[floor(random * length)]`; an out-of-range index yields no
candidate; `none` models the `'Failed to select parent'` throw. -/
def selectParentDraw (population : List GeneticIndividual) (rng : ℕ → ℚ)
    (best : Option GeneticIndividual) (ix : ℕ) :
    Option GeneticIndividual × ℕ :=
  let idx : ℤ := Int.floor (rng ix * population.length)
  let candidate := if 0 ≤ idx then population[idx.toNat]? else none
  match candidate, best with
  | none, b => (b, ix + 1)
  | some c, none => (some c, ix + 1)
  | some c, some b => (if c.fitness > b.fitness then some c else some b, ix + 1)

def selectParent (population : List GeneticIndividual) (rng : ℕ → ℚ)
    (ix : ℕ) : Option GeneticIndividual × ℕ :=
  let (b1, ix1) := selectParentDraw population rng none ix
  let (b2, ix2) := selectParentDraw population rng b1 ix1
  selectParentDraw population rng b2 ix2

/-- `removeDuplicatePlacements`: keep the first occurrence of each
`(id, x, y, rotated)` key (the JavaScript string key is modelled as the
tuple). -/
def removeDuplicatePlacements : List PlacedPiece → List PlacedPiece :=
  go []
where
  go (seen : List (String × ℚ × ℚ × Bool)) :
      List PlacedPiece → List PlacedPiece
  | [] => []
  | p :: rest =>
    let key := (p.id, p.x, p.y, p.rotated)
    if key ∈ seen then go seen rest
    else p :: go (key :: seen) rest

/-- `validatePlacements`: drop a placement when it fails the bounds test —
note the source's y-test compares `piece.y + piece.width` against
`panel.width`, exactly as written — or overlaps an already kept one. -/
def validatePlacements (placements : List PlacedPiece)
    (panel : OptimizationPanel) : List PlacedPiece :=
  go placements []
where
  go : List PlacedPiece → List PlacedPiece → List PlacedPiece
  | [], valid => valid
  | p :: rest, valid =>
    if p.x < 0 ∨ p.y < 0 ∨ p.x + p.width > panel.width ∨
        p.y + p.width > panel.width then
      go rest valid
    else if valid.any fun q => rectanglesOverlap p.toRect q.toRect then
      go rest valid
    else go rest (valid ++ [p])

/-- `AdvancedGeneticAlgorithm.crossover`: single-point crossover, duplicate
removal, validation, re-evaluation. -/
def crossover (parent1 parent2 : GeneticIndividual)
    (panel : OptimizationPanel) (rng : ℕ → ℚ) (ix : ℕ) :
    GeneticIndividual × ℕ :=
  let crossoverPoint :=
    (Int.floor (rng ix * parent1.placements.length)).toNat
  let childPlacements := parent1.placements.take crossoverPoint ++
    parent2.placements.drop crossoverPoint
  let uniquePlacements := removeDuplicatePlacements childPlacements
  let validPlacements := validatePlacements uniquePlacements panel
  (evaluateIndividual validPlacements panel, ix + 1)

/-- Swap two list entries (the JavaScript destructuring swap; out-of-range
indices leave the list unchanged). -/
def listSwap (l : List PlacedPiece) (i j : ℕ) : List PlacedPiece :=
  match l[i]?, l[j]? with
  | some a, some b => (l.set i b).set j a
  | _, _ => l

/-- The swap mutation: the probability draw happens only when the list has
more than one element; the two index draws only when the probability test
passes; the swap only when the indices differ and are in range. -/
def mutateSwap (placements : List PlacedPiece) (rng : ℕ → ℚ) (ix : ℕ) :
    List PlacedPiece × ℕ :=
  if placements.length > 1 then
    if rng ix < 0.3 then
      let i := (Int.floor (rng (ix + 1) * placements.length)).toNat
      let j := (Int.floor (rng (ix + 2) * placements.length)).toNat
      let l' := if i ≠ j ∧ 0 ≤ Int.floor (rng (ix + 1) * placements.length) ∧
          0 ≤ Int.floor (rng (ix + 2) * placements.length) then
          listSwap placements i j
        else placements
      (l', ix + 3)
    else (placements, ix + 1)
  else (placements, ix)

/-- The rotation mutation: one draw per placement; on success flip the flag
and swap the stored width and height. -/
def mutateRotation (rng : ℕ → ℚ) :
    List PlacedPiece → ℕ → List PlacedPiece × ℕ
  | [], ix => ([], ix)
  | p :: rest, ix =>
    let p' := if rng ix < 0.1 then
        { p with rotated := !p.rotated, height := p.width, width := p.height }
      else p
    let (rest', ix') := mutateRotation rng rest (ix + 1)
    (p' :: rest', ix')

/-- The position mutation: one probability draw per placement; on success
two further draws jitter x and y, clamped at 0. -/
def mutatePosition (rng : ℕ → ℚ) :
    List PlacedPiece → ℕ → List PlacedPiece × ℕ
  | [], ix => ([], ix)
  | p :: rest, ix =>
    if rng ix < 0.05 then
      let p' := { p with
        x := max 0 (p.x + (rng (ix + 1) - 0.5) * 10),
        y := max 0 (p.y + (rng (ix + 2) - 0.5) * 10) }
      let (rest', ix') := mutatePosition rng rest (ix + 3)
      (p' :: rest', ix')
    else
      let (rest', ix') := mutatePosition rng rest (ix + 1)
      (p :: rest', ix')

/-- `AdvancedGeneticAlgorithm.mutate`: swap, rotation and position mutations
in order, then re-evaluation (the source copies the new fitness, efficiency
and sheet count onto the individual, which together with the mutated
placement list is exactly the re-evaluated individual). -/
def mutate (individual : GeneticIndividual) (panel : OptimizationPanel)
    (rng : ℕ → ℚ) (ix : ℕ) : GeneticIndividual × ℕ :=
  let (l1, ix1) := mutateSwap individual.placements rng ix
  let (l2, ix2) := mutateRotation rng l1 ix1
  let (l3, ix3) := mutatePosition rng l2 ix2
  (evaluateIndividual l3 panel, ix3)

/-- `population.reduce((best, cur) => cur.fitness > best.fitness ? cur : best)`. -/
def reduceBest : GeneticIndividual → List GeneticIndividual → GeneticIndividual
  | best, [] => best
  | best, c :: rest =>
    reduceBest (if c.fitness > best.fitness then c else best) rest

/-- The child-generation loop of `evolvePopulation`
(`while (newPopulation.length < population.length)`, one push per round). -/
def evolveChildren (panel : OptimizationPanel) (rng : ℕ → ℚ)
    (population : List GeneticIndividual) :
    ℕ → ℕ → Except String (List GeneticIndividual × ℕ)
  | 0, ix => .ok ([], ix)
  | c + 1, ix =>
    let (op1, ix1) := selectParent population rng ix
    match op1 with
    | none => .error "Failed to select parent"
    | some parent1 =>
      let (op2, ix2) := selectParent population rng ix1
      match op2 with
      | none => .error "Failed to select parent"
      | some parent2 =>
        let (child, ix3) := crossover parent1 parent2 panel rng ix2
        let (childM, ix4) := mutate child panel rng ix3
        (evolveChildren panel rng population c ix4).map
          fun st => (childM :: st.1, st.2)

/-- `AdvancedGeneticAlgorithm.evolvePopulation`: elitism (a copy of the
fittest individual) followed by `population.length - 1` children.  A
`reduce` over an empty population throws in JavaScript. -/
def evolvePopulation (panel : OptimizationPanel) (rng : ℕ → ℚ)
    (population : List GeneticIndividual) (ix : ℕ) :
    Except String (List GeneticIndividual × ℕ) :=
  match population with
  | [] => .error "Reduce of empty array with no initial value"
  | first :: rest =>
    let bestIndividual := reduceBest first rest
    (evolveChildren panel rng population (population.length - 1) ix).map
      fun st => (bestIndividual :: st.1, st.2)

/-- The generation loop of `runOptimization`: refresh every fitness,
sort by fitness descending (stable), stop early when the best individual's
efficiency exceeds 0.95, otherwise evolve. -/
def geneticLoop (panel : OptimizationPanel) (rng : ℕ → ℚ) :
    ℕ → List GeneticIndividual → ℕ →
    Except String (List GeneticIndividual × ℕ)
  | 0, pop, ix => .ok (pop, ix)
  | g + 1, pop, ix =>
    let pop1 := pop.map fun ind =>
      { ind with fitness := (evaluateIndividual ind.placements panel).fitness }
    let pop2 := pop1.insertionSort fun a b => b.fitness - a.fitness ≤ 0
    match pop2[0]? with
    | some best =>
      if best.efficiency > (0.95 : ℚ) then .ok (pop2, ix)
      else
        match evolvePopulation panel rng pop2 ix with
        | .error e => .error e
        | .ok (pop3, ix') => geneticLoop panel rng g pop3 ix'
    | none =>
      match evolvePopulation panel rng pop2 ix with
      | .error e => .error e
      | .ok (pop3, ix') => geneticLoop panel rng g pop3 ix'

/-- The cut positions of the genetic `generateCuts` (midpoints between
consecutive distinct positions, panel edges included, every consecutive
pair considered). -/
def geneticCutPositions (positions : List ℚ) (kerf : ℚ) : List ℚ :=
  let sorted := positions.dedup.insertionSort (· ≤ ·)
  (sorted.zip sorted.tail).filterMap fun pq =>
    if pq.2 - pq.1 > kerf then some (pq.1 + (pq.2 - pq.1) / 2) else none

/-- `AdvancedGeneticAlgorithm.generateCuts` (horizontal first). -/
def geneticGenerateCuts (placements : List PlacedPiece)
    (panel : OptimizationPanel) (kerf : ℚ) : List CutInstruction :=
  (geneticCutPositions
      (0 :: panel.height :: placements.flatMap fun p => [p.y, p.y + p.height])
      kerf).map
    (fun pos => { isVertical := false, position := pos, sheetNumber := some 0 }) ++
  (geneticCutPositions
      (0 :: panel.width :: placements.flatMap fun p => [p.x, p.x + p.width])
      kerf).map
    (fun pos => { isVertical := true, position := pos, sheetNumber := some 0 })

/-- `AdvancedGeneticAlgorithm.runOptimization`.  Whatever happens during the
search, the returned record's `unusedPieces` is the literal empty list. -/
def geneticRunOptimization (pieces : List OptimizationPiece)
    (panels : List OptimizationPanel) (settings : OptimizationSettings)
    (rng : ℕ → ℚ) : Except String PartialResult :=
  match panels with
  | [] => .error "No panels provided for optimization"
  | panel :: _ =>
    let sortedPieces := sortPiecesByPriority (expandPieces pieces)
    let (population0, ix0) :=
      initializePopulation settings.kerf panel rng sortedPieces 0 50
    match geneticLoop panel rng 100 population0 ix0 with
    | .error e => .error e
    | .ok (population, _) =>
      match population[0]? with
      | none => .error "Failed to generate valid solution"
      | some bestSolution =>
        let totalArea := panel.height * panel.width
        let usedArea :=
          (bestSolution.placements.map fun p => p.height * p.width).sum
        .ok { placedPieces := bestSolution.placements,
              unusedPieces := [],
              efficiency := bestSolution.efficiency,
              totalArea := totalArea, usedArea := usedArea,
              wastedArea := totalArea - usedArea,
              cuts := geneticGenerateCuts bestSolution.placements panel
                settings.kerf,
              sheetCount := (Int.ceil bestSolution.sheetCount).toNat }

/-- `AdvancedGeneticAlgorithm.execute`: wrap any failure message. -/
def geneticExecute (pieces : List OptimizationPiece)
    (panels : List OptimizationPanel) (settings : OptimizationSettings)
    (rng : ℕ → ℚ) : Except String AlgorithmResult :=
  match geneticRunOptimization pieces panels settings rng with
  | .error e => .error ("Advanced Genetic Algorithm failed: " ++ e)
  | .ok r => .ok (r.withAlgorithm "advanced_genetic_algorithm")

/-! ## Strategy manager (`lib/algorithms/algorithm-manager.ts`) and the
compatibility validation of the second manager (`lib/algorithms/index.ts`) -/

/-- An optimization request (the `algorithm` field is carried by the caller
as the `preferred` argument). -/
structure OptimizationRequest where
  pieces : List OptimizationPiece
  panels : List OptimizationPanel
  settings : OptimizationSettings
deriving DecidableEq

/-- The registry's priority order (`registerDefaultAlgorithms`). -/
def algorithmPriority : List String :=
  ["beam_search_guillotine", "hybrid_constructive_local_search",
   "first_fit_decreasing", "advanced_genetic_algorithm"]

/-- The per-class `supportsRotation` constants. -/
def algoSupportsRotation : String → Bool
  | "first_fit_decreasing" => false
  | _ => true

/-- The per-class `supportsMultiSheet` constants — every registered strategy
declares `true`. -/
def algoSupportsMultiSheet : String → Bool := fun _ => true

/-- Dispatch `execute` by registry name (the genetic strategy consumes the
random stream). -/
def runAlgorithm (name : String) (rng : ℕ → ℚ) (req : OptimizationRequest) :
    Except String AlgorithmResult :=
  if name = "beam_search_guillotine" then
    beamExecute req.pieces req.panels req.settings
  else if name = "hybrid_constructive_local_search" then
    hybridExecute req.pieces req.panels req.settings
  else if name = "first_fit_decreasing" then
    ffdExecute req.pieces req.panels req.settings
  else
    geneticExecute req.pieces req.panels req.settings rng

/-- The fallback walk of `executeWithFallback`: try each remaining name in
priority order; when all fail, raise the aggregated message naming the
**first** failure (the `error` captured by the outer `catch`). -/
def fallbackChain (rng : ℕ → ℚ) (req : OptimizationRequest) (firstError : String) :
    List String → Except String AlgorithmResult
  | [] => .error ("All algorithms failed. Last error: " ++ firstError)
  | name :: rest =>
    match runAlgorithm name rng req with
    | .ok r => .ok r
    | .error _ => fallbackChain rng req firstError rest

/-- `AlgorithmManager.executeWithFallback` of `algorithm-manager.ts`: resolve
the preferred name (an unknown or absent name falls back to the default,
`beam_search_guillotine`), execute it directly — **no compatibility
validation of any kind happens here** — and walk the rest of the priority
chain on failure. -/
def executeWithFallback (rng : ℕ → ℚ) (req : OptimizationRequest)
    (preferred : Option String) : Except String AlgorithmResult :=
  let resolved :=
    match preferred with
    | some name =>
      if name ∈ algorithmPriority then name else "beam_search_guillotine"
    | none => "beam_search_guillotine"
  match runAlgorithm resolved rng req with
  | .ok r => .ok r
  | .error e => fallbackChain rng req e (algorithmPriority.drop 1)

/-- `AlgorithmManager.validateAlgorithmCompatibility` of
`lib/algorithms/index.ts` — the only place the spec's compatibility checks
exist.  It throws a plain `Error` (returned here as `some message`): missing
panels; a rotation-requesting request routed to a strategy without rotation
support; a request whose total piece area exceeds 80% of one panel routed to
a strategy without multi-sheet support. -/
def validateAlgorithmCompatibility (name : String)
    (req : OptimizationRequest) : Option String :=
  match req.panels with
  | [] => some "No panels provided"
  | panel :: _ =>
    let hasRotationRequest := req.pieces.any fun piece => piece.canRotate
    if hasRotationRequest ∧ ¬ algoSupportsRotation name then
      some ("Algorithm '" ++ name ++ "' does not support piece rotation")
    else
      let totalPieceArea := (req.pieces.map fun piece =>
        piece.height * piece.width * (piece.quantity : ℚ)).sum
      let panelArea := panel.height * panel.width
      if totalPieceArea > panelArea * (0.8 : ℚ) ∧
          ¬ algoSupportsMultiSheet name then
        some ("Algorithm '" ++ name ++ "' does not support multiple sheets")
      else none

/-! ## Result-level soundness of the three validating strategies -/

theorem ffdInitInv {panel : OptimizationPanel} (hH : 0 < panel.height) :
    FFDInvFrom panel 0
      [{ placedPieces := [],
         availableSpace := [⟨0, 0, panel.width, panel.height⟩] }] := by
  refine ⟨⟨trivial, ?_, Or.inl ?_⟩, trivial⟩
  · rw [heightsSum_nil]; exact le_of_lt hH
  · exact ⟨⟨0, 0, panel.width, panel.height⟩, rfl, rfl, heightsSum_nil.symm,
      rfl, by show (0 : ℚ) + panel.height = panel.height; ring, hH⟩

theorem mem_sortPiecesByPriority {pieces : List OptimizationPiece}
    {u : OptimizationPiece} (hu : u ∈ sortPiecesByPriority pieces) :
    u ∈ pieces := by
  unfold sortPiecesByPriority at hu
  exact (List.mem_insertionSort _).mp hu

/-- Dimensions survive expansion, priority sorting and area sorting. -/
theorem preprocessed_pos {pieces l : List OptimizationPiece}
    (hpos : ∀ p ∈ pieces, 0 < p.width ∧ 0 < p.height)
    (hl : l = (sortPiecesByPriority (expandPieces pieces)).insertionSort
      fun a b => b.width * b.height - a.width * a.height ≤ 0) :
    ∀ u ∈ l, 0 < u.width ∧ 0 < u.height := by
  subst hl
  intro u hu
  have h1 := mem_sortPiecesByPriority ((List.mem_insertionSort _).mp hu)
  obtain ⟨p, hp, rfl⟩ := mem_expandPieces h1
  exact hpos p hp

theorem ffd_result_sound {pieces : List OptimizationPiece}
    {panel : OptimizationPanel} {rest : List OptimizationPanel}
    {settings : OptimizationSettings} {r : AlgorithmResult}
    (hok : ffdExecute pieces (panel :: rest) settings = .ok r)
    (hpos : ∀ p ∈ pieces, 0 < p.width ∧ 0 < p.height)
    (hW : 0 < panel.width) (hH : 0 < panel.height) :
    (∀ p ∈ r.placedPieces, insidePanel panel p.toRect) ∧
    r.placedPieces.Pairwise (fun p q => p.sheetNumber = q.sheetNumber →
      rectanglesOverlap p.toRect q.toRect = false) ∧
    r.usedArea ≤ r.totalArea ∧ 0 ≤ r.efficiency ∧ r.efficiency ≤ 1 := by
  have hr : r = (ffdRunOptimization (sortPiecesByPriority (expandPieces pieces))
      panel settings).withAlgorithm "first_fit_decreasing" := by
    simp only [ffdExecute, Except.ok.injEq] at hok
    exact hok.symm
  subst hr
  have hpos' := preprocessed_pos hpos rfl
  have hinv : FFDInvFrom panel 0
      (((sortPiecesByPriority (expandPieces pieces)).insertionSort
        (fun a b => b.width * b.height - a.width * a.height ≤ 0)).foldl
        (ffdPlacePiece panel settings.kerf)
        [{ placedPieces := [],
           availableSpace := [⟨0, 0, panel.width, panel.height⟩] }]) :=
    ffdFold_inv hH (ffdInitInv hH) hpos'
  obtain ⟨hmem, hpair⟩ := ffd_flat_sound hinv
  have harea := ffd_flat_area (le_of_lt hW) (le_of_lt hH) hinv
  have hlen : 1 ≤ (((sortPiecesByPriority (expandPieces pieces)).insertionSort
      (fun a b => b.width * b.height - a.width * a.height ≤ 0)).foldl
      (ffdPlacePiece panel settings.kerf)
      [{ placedPieces := [],
         availableSpace := [⟨0, 0, panel.width, panel.height⟩] }]).length :=
    @ffdFold_length panel settings.kerf
      ((sortPiecesByPriority (expandPieces pieces)).insertionSort
        (fun a b => b.width * b.height - a.width * a.height ≤ 0))
      [{ placedPieces := [], availableSpace := [⟨0, 0, panel.width, panel.height⟩] }]
  refine ⟨fun p hp => (hmem p hp).1, hpair, ?_, ?_, ?_⟩
  all_goals
    have husum : (0 : ℚ) ≤ ((((sortPiecesByPriority (expandPieces pieces)).insertionSort
        (fun a b => b.width * b.height - a.width * a.height ≤ 0)).foldl
        (ffdPlacePiece panel settings.kerf)
        [{ placedPieces := [],
           availableSpace := [⟨0, 0, panel.width, panel.height⟩] }]).flatMap
        (·.placedPieces) |>.map fun p => p.width * p.height).sum := by
      apply List.sum_nonneg
      intro x hx
      obtain ⟨p, hp, rfl⟩ := List.mem_map.mp hx
      obtain ⟨_, _, hw, hh⟩ := hmem p hp
      positivity
  all_goals
    have htot : (0 : ℚ) < panel.width * panel.height *
        ((((sortPiecesByPriority (expandPieces pieces)).insertionSort
          (fun a b => b.width * b.height - a.width * a.height ≤ 0)).foldl
          (ffdPlacePiece panel settings.kerf)
          [{ placedPieces := [],
             availableSpace := [⟨0, 0, panel.width, panel.height⟩] }]).length : ℚ) := by
      have hlenq : (1 : ℚ) ≤ (((sortPiecesByPriority (expandPieces pieces)).insertionSort
          (fun a b => b.width * b.height - a.width * a.height ≤ 0)).foldl
          (ffdPlacePiece panel settings.kerf)
          [{ placedPieces := [],
             availableSpace := [⟨0, 0, panel.width, panel.height⟩] }]).length := by
        exact_mod_cast hlen
      have := mul_pos hW hH
      nlinarith
  · exact harea
  · exact div_nonneg husum (le_of_lt htot)
  · exact (div_le_one htot).mpr harea

theorem beam_result_sound {pieces : List OptimizationPiece}
    {panel : OptimizationPanel} {rest : List OptimizationPanel}
    {settings : OptimizationSettings} {r : AlgorithmResult}
    (hok : beamExecute pieces (panel :: rest) settings = .ok r)
    (hpos : ∀ p ∈ pieces, 0 < p.width ∧ 0 < p.height)
    (hW : 0 < panel.width) (hH : 0 < panel.height) :
    (∀ p ∈ r.placedPieces, insidePanel panel p.toRect) ∧
    r.placedPieces.Pairwise
      (fun p q => rectanglesOverlap p.toRect q.toRect = false) ∧
    r.usedArea ≤ r.totalArea ∧ 0 ≤ r.efficiency ∧ r.efficiency ≤ 1 := by
  unfold beamExecute beamRunOptimization at hok
  dsimp only at hok
  cases hloop : beamLoop settings.kerf 10
      (sortPiecesByPriority (expandPieces pieces)).length
      [{ placedPieces := [],
         availableSpaces := [⟨0, 0, panel.width, panel.height⟩],
         pieces := sortPiecesByPriority (expandPieces pieces), score := 0 }] with
  | nil =>
    rw [hloop] at hok
    exact absurd hok (by simp [Except.map])
  | cons best tail =>
    rw [hloop] at hok
    simp only [Except.map, Except.ok.injEq] at hok
    subst hok
    have hinv0 : ∀ n ∈ ([⟨[], [⟨0, 0, panel.width, panel.height⟩],
        sortPiecesByPriority (expandPieces pieces), 0⟩] : List BeamNode),
        BeamInv panel n := by
      intro n hn
      rw [List.mem_singleton] at hn
      subst hn
      refine ⟨?_, ?_, ?_, List.Pairwise.nil, ?_⟩
      · intro s hs
        rw [List.mem_singleton] at hs
        subst hs
        exact ⟨le_refl 0, by dsimp only; linarith, le_refl 0, by dsimp only; linarith⟩
      · intro s _ p hp
        exact absurd hp (List.not_mem_nil p)
      · intro p hp
        exact absurd hp (List.not_mem_nil p)
      · intro pc hpc
        obtain ⟨q, hq, rfl⟩ := mem_expandPieces (mem_sortPiecesByPriority hpc)
        exact hpos q hq
    have hbest : BeamInv panel best :=
      beamLoop_inv hinv0 best (hloop ▸ List.mem_cons_self best tail)
    obtain ⟨_, _, hplaced, hpair, _⟩ := hbest
    have harea : ((best.placedPieces.map fun p => p.width * p.height).sum :
        ℚ) ≤ panel.width * panel.height :=
      disjoint_pieces_area_le (fun p hp => ⟨(hplaced p hp).1, (hplaced p hp).2.1,
        (hplaced p hp).2.2.1⟩) hpair (le_of_lt hW) (le_of_lt hH)
    have husum : (0 : ℚ) ≤ (best.placedPieces.map fun p => p.width * p.height).sum := by
      apply List.sum_nonneg
      intro x hx
      obtain ⟨p, hp, rfl⟩ := List.mem_map.mp hx
      obtain ⟨_, hw, hh, _⟩ := hplaced p hp
      positivity
    have htot : (0 : ℚ) < panel.width * panel.height := mul_pos hW hH
    exact ⟨fun p hp => (hplaced p hp).1, hpair, harea,
      div_nonneg husum (le_of_lt htot), (div_le_one htot).mpr harea⟩

/-! ## Hybrid soundness

`splitSpace [s] s 0` is always empty: when `s` overlaps itself all four
strip guards are strict self-comparisons, and when it does not overlap
itself one of its dimensions is nonpositive, so the kerf filter (`> 0`)
drops it.  Consequently the constructive phase keeps exactly one sheet,
holding at most one placed piece, and the local search never has a second
sheet to pair with. -/

theorem splitSpace_self (s : Rect) : splitSpace [s] s 0 = [] := by
  have hch : splitChildren s s = if splitOverlaps s s then [] else [s] := by
    unfold splitChildren
    by_cases h : splitOverlaps s s = true
    · simp [h]
    · simp [h]
  unfold splitSpace
  rw [List.flatMap_cons, List.flatMap_nil, List.append_nil, hch]
  by_cases h : splitOverlaps s s = true
  · simp [h]
  · rw [if_neg h]
    have hdim : s.width ≤ 0 ∨ s.height ≤ 0 := by
      by_contra hcon
      push_neg at hcon
      apply h
      unfold splitOverlaps
      simp only [gt_iff_lt, Bool.and_eq_true, decide_eq_true_eq]
      refine ⟨⟨⟨?_, ?_⟩, ?_⟩, ?_⟩ <;> linarith [hcon.1, hcon.2]
    rcases hdim with hd | hd
    · simp [List.filter, not_lt.mpr hd]
    · simp [List.filter, not_lt.mpr hd]

/-- The reachable states of the hybrid constructive phase: either the
untouched fresh sheet, or one sheet holding a single placed piece and no
free space. -/
def HybridSimple (panel : OptimizationPanel) (sheets : List FFDSheet) : Prop :=
  sheets = [{ placedPieces := [],
              availableSpace := [⟨0, 0, panel.width, panel.height⟩] }] ∨
  ∃ q, sheets = [{ placedPieces := [q], availableSpace := [] }] ∧
    insidePanel panel q.toRect ∧ 0 < q.width ∧ 0 < q.height ∧
    q.sheetNumber = 0

theorem panelRect_insidePanel (panel : OptimizationPanel) :
    insidePanel panel ⟨0, 0, panel.width, panel.height⟩ := by
  refine ⟨le_refl 0, ?_, le_refl 0, ?_⟩ <;> dsimp only <;> linarith

theorem hybridPlaceStep_fresh (panel : OptimizationPanel)
    (piece : OptimizationPiece) :
    hybridPlaceStep panel
      [{ placedPieces := [],
         availableSpace := [⟨0, 0, panel.width, panel.height⟩] }] piece =
    (if canPlacePiece piece ⟨0, 0, panel.width, panel.height⟩ false then
       [{ placedPieces :=
            [placePiece piece ⟨0, 0, panel.width, panel.height⟩ false 0],
          availableSpace := [] }]
     else if piece.canRotate &&
         canPlacePiece piece ⟨0, 0, panel.width, panel.height⟩ true then
       [{ placedPieces :=
            [placePiece piece ⟨0, 0, panel.width, panel.height⟩ true 0],
          availableSpace := [] }]
     else
       [{ placedPieces := [],
          availableSpace := [⟨0, 0, panel.width, panel.height⟩] }]) := by
  unfold hybridPlaceStep hybridScanOrNew hybridScanSheets
  by_cases h1 :
      canPlacePiece piece ⟨0, 0, panel.width, panel.height⟩ false = true
  · simp [h1, splitSpace_self]
  · by_cases h2 : (piece.canRotate &&
        canPlacePiece piece ⟨0, 0, panel.width, panel.height⟩ true) = true
    · simp [h1, h2, splitSpace_self]
    · simp [h1, h2, hybridScanSheets]

theorem hybridPlaceStep_placed (panel : OptimizationPanel)
    (piece : OptimizationPiece) (q : PlacedPiece) :
    hybridPlaceStep panel
      [{ placedPieces := [q], availableSpace := [] }] piece =
    [{ placedPieces := [q], availableSpace := [] }] := rfl

theorem hybridPlaceStep_simple {panel : OptimizationPanel}
    {piece : OptimizationPiece} {sheets : List FFDSheet}
    (hp : 0 < piece.width ∧ 0 < piece.height)
    (hinv : HybridSimple panel sheets) :
    HybridSimple panel (hybridPlaceStep panel sheets piece) := by
  rcases hinv with h | ⟨q, hq, hin, hw, hh, hn⟩
  · subst h
    rw [hybridPlaceStep_fresh]
    by_cases h1 :
        canPlacePiece piece ⟨0, 0, panel.width, panel.height⟩ false = true
    · rw [if_pos h1]
      right
      exact ⟨_, rfl,
        insidePanel_of_rectInside (panelRect_insidePanel panel)
          (placePiece_inside h1), hp.1, hp.2, rfl⟩
    · rw [if_neg h1]
      by_cases h2 : (piece.canRotate &&
          canPlacePiece piece ⟨0, 0, panel.width, panel.height⟩ true) = true
      · rw [if_pos h2]
        right
        exact ⟨_, rfl,
          insidePanel_of_rectInside (panelRect_insidePanel panel)
            (placePiece_inside (Bool.and_elim_right h2)), hp.2, hp.1, rfl⟩
      · rw [if_neg h2]
        left
        rfl
  · subst hq
    rw [hybridPlaceStep_placed]
    exact Or.inr ⟨q, rfl, hin, hw, hh, hn⟩

theorem constructivePlacement_simple {panel : OptimizationPanel}
    {pieces : List OptimizationPiece}
    (hpos : ∀ p ∈ pieces, 0 < p.width ∧ 0 < p.height) :
    HybridSimple panel (constructivePlacement panel pieces) := by
  unfold constructivePlacement
  suffices h : ∀ l : List OptimizationPiece,
      (∀ p ∈ l, 0 < p.width ∧ 0 < p.height) →
      ∀ sheets, HybridSimple panel sheets →
        HybridSimple panel (l.foldl (hybridPlaceStep panel) sheets) by
    exact h pieces hpos _ (Or.inl rfl)
  intro l
  induction l with
  | nil => intro _ sheets h; exact h
  | cons p rest ih =>
    intro hl sheets h
    exact ih (fun x hx => hl x (List.mem_cons_of_mem _ hx)) _
      (hybridPlaceStep_simple (hl p (List.mem_cons_self _ _)) h)

theorem HybridSimple.length_eq {panel : OptimizationPanel}
    {sheets : List FFDSheet} (h : HybridSimple panel sheets) :
    sheets.length = 1 := by
  rcases h with h | ⟨q, h, _⟩ <;> subst h <;> rfl

theorem lsPass_singleton (panel : OptimizationPanel)
    {sheets : List FFDSheet} (h : sheets.length = 1) :
    lsPass panel sheets = (sheets, false) := by
  unfold lsPass
  rw [h]
  unfold lsForI
  dsimp only
  rw [h]
  unfold lsForJ lsForI
  rfl

theorem localSearch_singleton (panel : OptimizationPanel) (fuel : ℕ)
    {sheets : List FFDSheet} (h : sheets.length = 1) :
    localSearchImprovement panel fuel sheets = sheets := by
  cases fuel with
  | zero => rfl
  | succ f =>
    unfold localSearchImprovement
    rw [lsPass_singleton panel h]
    rfl

theorem hybrid_result_sound {pieces : List OptimizationPiece}
    {panel : OptimizationPanel} {rest : List OptimizationPanel}
    {settings : OptimizationSettings} {r : AlgorithmResult}
    (hok : hybridExecute pieces (panel :: rest) settings = .ok r)
    (hpos : ∀ p ∈ pieces, 0 < p.width ∧ 0 < p.height)
    (hW : 0 < panel.width) (hH : 0 < panel.height) :
    (∀ p ∈ r.placedPieces, insidePanel panel p.toRect) ∧
    r.placedPieces.Pairwise
      (fun p q => rectanglesOverlap p.toRect q.toRect = false) ∧
    r.usedArea ≤ r.totalArea ∧ 0 ≤ r.efficiency ∧ r.efficiency ≤ 1 := by
  have hr : r = (hybridRunOptimization pieces panel settings).withAlgorithm
      "hybrid_constructive_local_search" := by
    simp only [hybridExecute, Except.ok.injEq] at hok
    exact hok.symm
  subst hr
  have hsimple := @constructivePlacement_simple panel pieces hpos
  have hset : localSearchImprovement panel 100
      (constructivePlacement panel pieces) =
      constructivePlacement panel pieces :=
    localSearch_singleton panel 100 hsimple.length_eq
  have key : ∀ sheets, HybridSimple panel sheets →
      localSearchImprovement panel 100 (constructivePlacement panel pieces) =
        sheets →
      (∀ p ∈ ((hybridRunOptimization pieces panel settings).withAlgorithm
          "hybrid_constructive_local_search").placedPieces,
        insidePanel panel p.toRect) ∧
      ((hybridRunOptimization pieces panel settings).withAlgorithm
          "hybrid_constructive_local_search").placedPieces.Pairwise
        (fun p q => rectanglesOverlap p.toRect q.toRect = false) ∧
      ((hybridRunOptimization pieces panel settings).withAlgorithm
          "hybrid_constructive_local_search").usedArea ≤
        ((hybridRunOptimization pieces panel settings).withAlgorithm
          "hybrid_constructive_local_search").totalArea ∧
      0 ≤ ((hybridRunOptimization pieces panel settings).withAlgorithm
          "hybrid_constructive_local_search").efficiency ∧
      ((hybridRunOptimization pieces panel settings).withAlgorithm
          "hybrid_constructive_local_search").efficiency ≤ 1 := by
    intro sheets hs heq
    unfold hybridRunOptimization PartialResult.withAlgorithm
    dsimp only
    rw [heq]
    rcases hs with h | ⟨q, h, hin, hwq, hhq, _⟩
    all_goals subst h
    · refine ⟨?_, ?_, ?_, ?_, ?_⟩
      · intro p hp; exact absurd hp (by simp)
      · simp
      · simp only [List.flatMap_cons, List.flatMap_nil, List.append_nil,
          List.map_nil, List.sum_nil, List.length_cons, List.length_nil,
          zero_add, Nat.cast_one, mul_one]
        nlinarith
      · simp only [List.flatMap_cons, List.flatMap_nil, List.append_nil,
          List.map_nil, List.sum_nil, List.length_cons, List.length_nil,
          zero_add, Nat.cast_one, mul_one, zero_div]
        positivity
      · simp only [List.flatMap_cons, List.flatMap_nil, List.append_nil,
          List.map_nil, List.sum_nil, List.length_cons, List.length_nil,
          zero_add, Nat.cast_one, mul_one, zero_div]
        linarith
    · obtain ⟨hx0, hxw, hy0, hyh⟩ := id hin
      have hwle : q.width ≤ panel.width := by
        dsimp only [PlacedPiece.toRect] at hx0 hxw; linarith
      have hhle : q.height ≤ panel.height := by
        dsimp only [PlacedPiece.toRect] at hy0 hyh; linarith
      have harea : q.width * q.height ≤ panel.width * panel.height := by
        nlinarith
      refine ⟨?_, ?_, ?_, ?_, ?_⟩
      · intro p hp
        have : p = q := by simpa using hp
        subst this
        exact hin
      · simp
      · simp only [List.flatMap_cons, List.flatMap_nil, List.append_nil,
          List.map_cons, List.map_nil, List.sum_cons, List.sum_nil,
          List.length_cons, List.length_nil, zero_add, Nat.cast_one, mul_one, add_zero]
        linarith
      · simp only [List.flatMap_cons, List.flatMap_nil, List.append_nil,
          List.map_cons, List.map_nil, List.sum_cons, List.sum_nil,
          List.length_cons, List.length_nil, zero_add, Nat.cast_one, mul_one, add_zero]
        have h1 : (0 : ℚ) ≤ q.width * q.height := by nlinarith
        have h2 : (0 : ℚ) < panel.width * panel.height := by nlinarith
        exact div_nonneg h1 (le_of_lt h2)
      · simp only [List.flatMap_cons, List.flatMap_nil, List.append_nil,
          List.map_cons, List.map_nil, List.sum_cons, List.sum_nil,
          List.length_cons, List.length_nil, zero_add, Nat.cast_one, mul_one, add_zero]
        have h2 : (0 : ℚ) < panel.width * panel.height := by nlinarith
        exact (div_le_one h2).mpr harea
  exact key _ hsimple hset

/-! ## Concrete inputs shared by the claim witnesses and counterexamples -/

/-- One 40×30 piece of quantity 1: placeable by every strategy on `wPanel`. -/
def wPieces : List OptimizationPiece :=
  [{ id := "a", width := 40, height := 30, quantity := 1 }]

/-- A 100×100 panel. -/
def wPanel : OptimizationPanel := ⟨100, 100⟩

/-- Kerf 0. -/
def wSettings : OptimizationSettings := ⟨0⟩

/-- The first-fit-decreasing result on the witness scenario. -/
def wFfd : AlgorithmResult :=
  (ffdRunOptimization (sortPiecesByPriority (expandPieces wPieces)) wPanel
    wSettings).withAlgorithm "first_fit_decreasing"

/-- The beam-search result on the witness scenario. -/
def wBeam : AlgorithmResult :=
  (beamExecute wPieces [wPanel] wSettings).toOption.getD wFfd

/-- The hybrid result on the witness scenario. -/
def wHyb : AlgorithmResult :=
  (hybridRunOptimization wPieces wPanel wSettings).withAlgorithm
    "hybrid_constructive_local_search"

/-- Two 100×100 pieces (one source piece of quantity 2): each alone fills the
100×100 panel, so the second can never also fit. -/
def gFillPieces : List OptimizationPiece :=
  [{ id := "fill", width := 100, height := 100, quantity := 2 }]

/-- A piece that exactly fits the panel plus a piece too large for it in
every orientation. -/
def gMixPieces : List OptimizationPiece :=
  [{ id := "fit", width := 100, height := 100, quantity := 1 },
   { id := "huge", width := 200, height := 200, quantity := 1 }]

/-- The 100×100 panel of the genetic scenarios. -/
def gPanel : OptimizationPanel := ⟨100, 100⟩

/-- Kerf 0 for the genetic scenarios. -/
def gSettings : OptimizationSettings := ⟨0⟩

/-- A request whose single piece asks for rotation, on a 100×100 panel. -/
def c2Req : OptimizationRequest :=
  { pieces := [{ id := "rot", width := 40, height := 30, quantity := 1,
                 canRotate := true }],
    panels := [⟨100, 100⟩], settings := ⟨0⟩ }

/-- What first-fit-decreasing returns on `c2Req`. -/
def wC2Res : AlgorithmResult :=
  (ffdRunOptimization (sortPiecesByPriority (expandPieces c2Req.pieces))
    ⟨100, 100⟩ c2Req.settings).withAlgorithm "first_fit_decreasing"

/-- One 10×10 piece that exactly fits the 10×10 panel of the C3 scenario. -/
def c3Pieces : List OptimizationPiece :=
  [{ id := "a", width := 10, height := 10, quantity := 1 }]

/-- Sheet 0's piece of the C5 scenario: 10×10 at the origin. -/
def c5p1 : PlacedPiece :=
  { id := "p1", x := 0, y := 0, width := 10, height := 10, rotated := false,
    sheetNumber := 0, label := none }

/-- Sheet 1's piece of the C5 scenario: 10×10 at (50, 50). -/
def c5p2 : PlacedPiece :=
  { id := "p2", x := 50, y := 50, width := 10, height := 10, rotated := false,
    sheetNumber := 1, label := none }

/-- The two-sheet state handed to the local search in the C5 scenario. -/
def c5Sheets : List FFDSheet := [⟨[c5p1], []⟩, ⟨[c5p2], []⟩]

/-- A 200×200 piece: too large for a 100×100 panel in either orientation. -/
def c9Piece : OptimizationPiece :=
  { id := "big", width := 200, height := 200, quantity := 1 }

/-! ## C1 — placement validity -/

/-- **C1** (amended).  For the three strategies that validate their
placements geometrically — first-fit-decreasing, beam-search and hybrid —
every placed piece of a successful run on positive-dimension pieces and a
positive panel lies inside `[0, width] × [0, height]`, and two placed pieces
on the same sheet never overlap.  The claim's "any strategy" is refuted by
the genetic strategy (see the counterexample): its placement construction
parks pieces that fit nowhere at `(0, 0)` of sheet 0 without any overlap or
bounds check, so its result can hold two coincident full-panel placements. -/
theorem C1_validating_strategies_place_inside_and_disjoint
    (pieces : List OptimizationPiece) (panel : OptimizationPanel)
    (rest : List OptimizationPanel) (settings : OptimizationSettings)
    (rF rB rH : AlgorithmResult)
    (hokF : ffdExecute pieces (panel :: rest) settings = .ok rF)
    (hokB : beamExecute pieces (panel :: rest) settings = .ok rB)
    (hokH : hybridExecute pieces (panel :: rest) settings = .ok rH)
    (hpos : ∀ q ∈ pieces, 0 < q.width ∧ 0 < q.height)
    (hW : 0 < panel.width) (hH : 0 < panel.height) :
    ((∀ p ∈ rF.placedPieces, insidePanel panel p.toRect) ∧
      rF.placedPieces.Pairwise (fun p q => p.sheetNumber = q.sheetNumber →
        rectanglesOverlap p.toRect q.toRect = false)) ∧
    ((∀ p ∈ rB.placedPieces, insidePanel panel p.toRect) ∧
      rB.placedPieces.Pairwise (fun p q => p.sheetNumber = q.sheetNumber →
        rectanglesOverlap p.toRect q.toRect = false)) ∧
    ((∀ p ∈ rH.placedPieces, insidePanel panel p.toRect) ∧
      rH.placedPieces.Pairwise (fun p q => p.sheetNumber = q.sheetNumber →
        rectanglesOverlap p.toRect q.toRect = false)) := by
  obtain ⟨hF1, hF2, _⟩ := ffd_result_sound hokF hpos hW hH
  obtain ⟨hB1, hB2, _⟩ := beam_result_sound hokB hpos hW hH
  obtain ⟨hG1, hG2, _⟩ := hybrid_result_sound hokH hpos hW hH
  refine ⟨⟨hF1, hF2⟩, ⟨hB1, hB2.imp ?_⟩, ⟨hG1, hG2.imp ?_⟩⟩ <;>
    exact fun h _ => h

/-- Witness for C1: on the 40×30-piece / 100×100-panel scenario all three
validating strategies succeed and the theorem's conclusions hold for their
results. -/
theorem C1_validating_strategies_witness :
    ((∀ p ∈ wFfd.placedPieces, insidePanel wPanel p.toRect) ∧
      wFfd.placedPieces.Pairwise (fun p q => p.sheetNumber = q.sheetNumber →
        rectanglesOverlap p.toRect q.toRect = false)) ∧
    ((∀ p ∈ wBeam.placedPieces, insidePanel wPanel p.toRect) ∧
      wBeam.placedPieces.Pairwise (fun p q => p.sheetNumber = q.sheetNumber →
        rectanglesOverlap p.toRect q.toRect = false)) ∧
    ((∀ p ∈ wHyb.placedPieces, insidePanel wPanel p.toRect) ∧
      wHyb.placedPieces.Pairwise (fun p q => p.sheetNumber = q.sheetNumber →
        rectanglesOverlap p.toRect q.toRect = false)) :=
  C1_validating_strategies_place_inside_and_disjoint wPieces wPanel []
    wSettings wFfd wBeam wHyb rfl rfl rfl (by decide) (by decide) (by decide)

set_option maxRecDepth 4000 in
/-- Counterexample for C1 as frozen: a deterministic genetic run on two
100×100 pieces and a 100×100 panel returns two placements that sit on the
same sheet at the same position and overlap — the invariant fails for the
genetic strategy. -/
theorem C1_counterexample_genetic_overlapping_placements :
    ∃ r, geneticExecute gFillPieces [gPanel] gSettings (fun _ => 0) = .ok r ∧
      r.placedPieces.length = 2 ∧
      ∀ p ∈ r.placedPieces, ∀ q ∈ r.placedPieces,
        p.sheetNumber = q.sheetNumber ∧
        rectanglesOverlap p.toRect q.toRect = true :=
  ⟨_, rfl, by decide, by decide⟩

/-! ## C2 — compatibility validation -/

/-- **C2** (amended).  `AlgorithmManager.executeWithFallback` of
`algorithm-manager.ts` performs **no** compatibility validation and no
`ConfigurationError` type exists anywhere: whenever the resolved strategy
succeeds, its result is returned unchanged — shown here for a request routed
to first-fit-decreasing, the one strategy without rotation support.  The
rotation / multi-sheet checks live only in the second manager
(`lib/algorithms/index.ts`, `validateAlgorithmCompatibility`), which throws a
plain `Error`; on a request with at least one panel it rejects **exactly**
when some piece requests rotation and the routed strategy lacks rotation
support — the 80 % multi-sheet branch is unreachable because every registered
strategy declares `supportsMultiSheet = true`. -/
theorem C2_no_validation_in_executeWithFallback :
    (∀ (rng : ℕ → ℚ) (req : OptimizationRequest) (r : AlgorithmResult),
      ffdExecute req.pieces req.panels req.settings = .ok r →
      executeWithFallback rng req (some "first_fit_decreasing") = .ok r) ∧
    (∀ (name : String) (req : OptimizationRequest) (panel : OptimizationPanel)
       (rest : List OptimizationPanel), req.panels = panel :: rest →
      (validateAlgorithmCompatibility name req ≠ none ↔
        (req.pieces.any fun piece => piece.canRotate) = true ∧
          algoSupportsRotation name = false)) := by
  constructor
  · intro rng req r hok
    unfold executeWithFallback
    dsimp only
    rw [if_pos (by decide)]
    unfold runAlgorithm
    rw [if_neg (by decide), if_neg (by decide), if_pos rfl, hok]
  · intro name req panel rest hpanels
    unfold validateAlgorithmCompatibility
    rw [hpanels]
    dsimp only
    split
    · next hcond =>
      refine ⟨fun _ => ⟨hcond.1, ?_⟩, fun _ => by simp⟩
      have := hcond.2
      simpa using this
    · next hcond =>
      rw [if_neg]
      · simp only [ne_eq, not_true_eq_false, false_iff]
        rintro ⟨ha, hs⟩
        exact hcond ⟨ha, by simp [hs]⟩
      · rintro ⟨_, hms⟩
        exact hms rfl

/-- Witness for C2: on the rotation-requesting request `c2Req`,
first-fit-decreasing succeeds, `executeWithFallback` hands its result
through untouched, and the `index.ts` validation rejects that very pairing. -/
theorem C2_no_validation_witness :
    executeWithFallback (fun _ => 0) c2Req (some "first_fit_decreasing") =
      .ok wC2Res ∧
    (validateAlgorithmCompatibility "first_fit_decreasing" c2Req ≠ none ↔
      (c2Req.pieces.any fun piece => piece.canRotate) = true ∧
        algoSupportsRotation "first_fit_decreasing" = false) :=
  ⟨C2_no_validation_in_executeWithFallback.1 (fun _ => 0) c2Req wC2Res rfl,
   C2_no_validation_in_executeWithFallback.2 "first_fit_decreasing" c2Req
     ⟨100, 100⟩ [] rfl⟩

/-- Counterexample for C2 as frozen: the rotation-requesting request `c2Req`
routed to first-fit-decreasing is **not** rejected — the strategy runs and
returns a placement — although the strategy does not support rotation and
the (never consulted) compatibility check would refuse the pairing.  The
spec's Scenario E ("rejected with ConfigurationError before any placement
attempt") therefore fails. -/
theorem C2_counterexample_rotation_request_executed :
    ∃ r, runAlgorithm "first_fit_decreasing" (fun _ => 0) c2Req = .ok r ∧
      r.placedPieces ≠ [] ∧
      (c2Req.pieces.any fun piece => piece.canRotate) = true ∧
      algoSupportsRotation "first_fit_decreasing" = false ∧
      validateAlgorithmCompatibility "first_fit_decreasing" c2Req ≠ none :=
  ⟨_, rfl, by decide, by decide, by decide, by decide⟩

/-! ## C3 — beam-search piece conservation -/

/-- **C3** (refuted — code bug).  After the space loop of the beam
expansion, the source pushes `node.pieces[0]` onto `unplacedPieces`
unconditionally — onto the very array every successful child already holds as
its remaining-piece list.  A piece is therefore retained **even when it was
just placed**: on a single 10×10 piece and a 10×10 panel the sole expanded
piece ends the run both in `placedPieces` and in `unusedPieces`, so placed
plus remaining is strictly larger than the original multiset. -/
theorem C3_beam_places_and_retains_piece :
    ∃ r, beamExecute c3Pieces [⟨10, 10⟩] ⟨0⟩ = .ok r ∧
      (expandPieces c3Pieces).length = 1 ∧
      r.placedPieces.length = 1 ∧
      r.unusedPieces = expandPieces c3Pieces ∧
      ∀ p ∈ r.placedPieces, p.id = "a" :=
  ⟨_, rfl, by decide, by decide, by decide, by decide⟩

/-! ## C4 — area accounting -/

/-- **C4** (amended).  Successful first-fit-decreasing, beam-search and
hybrid runs on positive-dimension pieces and a positive panel satisfy
`usedArea ≤ totalArea` and `efficiency ∈ [0, 1]`.  The claim's "any strategy"
fails for the genetic strategy (see the counterexample): it can return
`usedArea` twice `totalArea` and `efficiency = 2`. -/
theorem C4_validating_strategies_area_bounds
    (pieces : List OptimizationPiece) (panel : OptimizationPanel)
    (rest : List OptimizationPanel) (settings : OptimizationSettings)
    (rF rB rH : AlgorithmResult)
    (hokF : ffdExecute pieces (panel :: rest) settings = .ok rF)
    (hokB : beamExecute pieces (panel :: rest) settings = .ok rB)
    (hokH : hybridExecute pieces (panel :: rest) settings = .ok rH)
    (hpos : ∀ q ∈ pieces, 0 < q.width ∧ 0 < q.height)
    (hW : 0 < panel.width) (hH : 0 < panel.height) :
    (rF.usedArea ≤ rF.totalArea ∧ 0 ≤ rF.efficiency ∧ rF.efficiency ≤ 1) ∧
    (rB.usedArea ≤ rB.totalArea ∧ 0 ≤ rB.efficiency ∧ rB.efficiency ≤ 1) ∧
    (rH.usedArea ≤ rH.totalArea ∧ 0 ≤ rH.efficiency ∧ rH.efficiency ≤ 1) := by
  obtain ⟨_, _, hF⟩ := ffd_result_sound hokF hpos hW hH
  obtain ⟨_, _, hB⟩ := beam_result_sound hokB hpos hW hH
  obtain ⟨_, _, hG⟩ := hybrid_result_sound hokH hpos hW hH
  exact ⟨hF, hB, hG⟩

/-- Witness for C4: the area bounds at the concrete 40×30-piece scenario for
all three validating strategies. -/
theorem C4_area_bounds_witness :
    (wFfd.usedArea ≤ wFfd.totalArea ∧ 0 ≤ wFfd.efficiency ∧
      wFfd.efficiency ≤ 1) ∧
    (wBeam.usedArea ≤ wBeam.totalArea ∧ 0 ≤ wBeam.efficiency ∧
      wBeam.efficiency ≤ 1) ∧
    (wHyb.usedArea ≤ wHyb.totalArea ∧ 0 ≤ wHyb.efficiency ∧
      wHyb.efficiency ≤ 1) :=
  C4_validating_strategies_area_bounds wPieces wPanel [] wSettings wFfd wBeam
    wHyb rfl rfl rfl (by decide) (by decide) (by decide)

set_option maxRecDepth 4000 in
/-- Counterexample for C4 as frozen: the deterministic genetic run on two
100×100 pieces and one 100×100 panel returns `usedArea = 20000 > 10000 =
totalArea` and `efficiency = 2 ∉ [0, 1]`. -/
theorem C4_counterexample_genetic_efficiency_two :
    ∃ r, geneticExecute gFillPieces [gPanel] gSettings (fun _ => 0) = .ok r ∧
      r.usedArea = 20000 ∧ r.totalArea = 10000 ∧ r.efficiency = 2 :=
  ⟨_, rfl, by decide, by decide, by decide⟩

/-! ## C5 — hybrid local-search commit discipline -/

/-- **C5** (refuted — code bug).  The "tentative" exchange of
`localSearchImprovement` is not tentative: `newPlacements` is a shallow copy
whose entries alias the live `PlacedPiece` records, so the try-out store
already overwrites sheet 0's piece position in place.  On the two-sheet state
`c5Sheets` the candidate exchange does **not** improve the combined
efficiency (the efficiency formula never reads positions, so it cannot
change), yet after the search sheet 0's piece sits at `(50, 50)` — the
failed exchange did not leave the placements unchanged, refuting the
claim's commit-only-if-checks discipline. -/
theorem C5_local_search_mutates_without_commit :
    localSearchImprovement ⟨100, 100⟩ 100 c5Sheets =
      [⟨[{ c5p1 with x := 50, y := 50 }], []⟩, ⟨[c5p2], []⟩] ∧
    hybridEff (localSearchImprovement ⟨100, 100⟩ 100 c5Sheets) ⟨100, 100⟩ =
      hybridEff c5Sheets ⟨100, 100⟩ ∧
    localSearchImprovement ⟨100, 100⟩ 100 c5Sheets ≠ c5Sheets := by
  refine ⟨by decide, by decide, by decide⟩

/-! ## C9 — the oversized-piece scenario -/

/-- **C9** (amended).  First-fit-decreasing behaves as Scenario B asks: on a
request holding one piece (quantity 1) too large for the panel in both
orientations it returns normally, the piece's unit copy is the whole
`unusedPieces` list, `placedPieces` is empty, and only the one initial sheet
exists (`sheetCount = 1`) — no sheet is opened for the piece.  The claim's
"a strategy returns normally" fails for beam-search, the other strategy the
claim cites: on the same request it throws `'No valid solution found'` (see
the counterexample). -/
theorem C9_oversized_piece_ffd_returns_normally
    (p : OptimizationPiece) (panel : OptimizationPanel)
    (rest : List OptimizationPanel) (settings : OptimizationSettings)
    (hq : p.quantity = 1)
    (h1 : panel.width < p.width ∨ panel.height < p.height)
    (h2 : panel.width < p.height ∨ panel.height < p.width) :
    ∃ r, ffdExecute [p] (panel :: rest) settings = .ok r ∧
      r.placedPieces = [] ∧ r.unusedPieces = [{ p with quantity := 1 }] ∧
      r.sheetCount = 1 ∧ r.usedArea = 0 := by
  have hfitF : fitCandidate { p with quantity := 1 }
      ⟨0, 0, panel.width, panel.height⟩ false = none := by
    unfold fitCandidate
    simp only [Bool.false_eq_true, if_false]
    rw [if_neg]
    dsimp only
    rintro ⟨ha, hb⟩
    rcases h1 with h | h <;> linarith
  have hfitT : fitCandidate { p with quantity := 1 }
      ⟨0, 0, panel.width, panel.height⟩ true = none := by
    unfold fitCandidate
    simp only [if_true]
    rw [if_neg]
    dsimp only
    rintro ⟨ha, hb⟩
    rcases h2 with h | h <;> linarith
  have hbfF : findBestFit { p with quantity := 1 }
      [⟨0, 0, panel.width, panel.height⟩] false = none := by
    simp [findBestFit, findBestFitAux, hfitF]
  have hbfT : findBestFit { p with quantity := 1 }
      [⟨0, 0, panel.width, panel.height⟩] true = none := by
    simp [findBestFit, findBestFitAux, hfitT]
  have hexp : expandPieces [p] = [{ p with quantity := 1 }] := by
    simp [expandPieces, hq, List.replicate]
  have hsort : sortPiecesByPriority (expandPieces [p]) =
      [{ p with quantity := 1 }] := by rw [hexp]; rfl
  have htry : ffdTryPlaceOnSheets settings.kerf { p with quantity := 1 }
      [{ placedPieces := [],
         availableSpace := [⟨0, 0, panel.width, panel.height⟩] }] 0 = none := by
    simp [ffdTryPlaceOnSheets, hbfF, hbfT]
  have hplace : ffdPlacePiece panel settings.kerf
      [{ placedPieces := [],
         availableSpace := [⟨0, 0, panel.width, panel.height⟩] }]
      { p with quantity := 1 } =
      [{ placedPieces := [],
         availableSpace := [⟨0, 0, panel.width, panel.height⟩] }] := by
    unfold ffdPlacePiece
    rw [htry]
    dsimp only
    rw [hbfF]
  refine ⟨_, rfl, ?_, ?_, ?_, ?_⟩
  all_goals
    unfold ffdRunOptimization
    rw [hsort]
    dsimp only
    simp only [List.insertionSort, List.orderedInsert, List.foldl_cons,
      List.foldl_nil, hplace]
  all_goals rfl

/-- Witness for C9: the 200×200 piece on the 100×100 panel satisfies the
oversizedness hypotheses, and first-fit-decreasing returns it unused on an
untouched single sheet. -/
theorem C9_oversized_piece_witness :
    c9Piece.quantity = 1 ∧
    (wPanel.width < c9Piece.width ∨ wPanel.height < c9Piece.height) ∧
    (wPanel.width < c9Piece.height ∨ wPanel.height < c9Piece.width) ∧
    ∃ r, ffdExecute [c9Piece] (wPanel :: []) wSettings = .ok r ∧
      r.placedPieces = [] ∧
      r.unusedPieces = [{ c9Piece with quantity := 1 }] ∧
      r.sheetCount = 1 ∧ r.usedArea = 0 :=
  ⟨rfl, by decide, by decide,
   C9_oversized_piece_ffd_returns_normally c9Piece wPanel [] wSettings rfl
     (by decide) (by decide)⟩

/-- Counterexample for C9 as frozen: beam-search — the second strategy the
claim cites — does **not** return normally on the oversized piece: its beam
is empty after the first depth, and `runOptimization` throws `'No valid
solution found'`. -/
theorem C9_counterexample_beam_throws_on_oversized :
    beamExecute [c9Piece] [wPanel] wSettings =
      .error "No valid solution found" := by decide

/-! ## C10 — the genetic strategy's unused-piece reporting -/

/-- `AdvancedGeneticAlgorithm.runOptimization` writes the literal `[]` into
`unusedPieces` of every result it returns. -/
theorem geneticRun_unused_nil {pieces : List OptimizationPiece}
    {panels : List OptimizationPanel} {settings : OptimizationSettings}
    {rng : ℕ → ℚ} {pr : PartialResult}
    (h : geneticRunOptimization pieces panels settings rng = .ok pr) :
    pr.unusedPieces = [] := by
  unfold geneticRunOptimization at h
  split at h
  · exact absurd h (by simp)
  · dsimp only at h
    split at h
    · exact absurd h (by simp)
    · split at h
      · exact absurd h (by simp)
      · simp only [Except.ok.injEq] at h
        subst h
        rfl

set_option maxRecDepth 4000 in
/-- **C10** (confirmed).  Every successful genetic run returns
`unusedPieces = []` — the source assigns the literal empty list — and the
claim's sharper reading also holds: on a concrete request whose second piece
fits nowhere, the returned result omits that piece from `placedPieces` *and*
from `unusedPieces`, silently losing it. -/
theorem C10_genetic_unused_always_empty :
    (∀ (pieces : List OptimizationPiece) (panels : List OptimizationPanel)
       (settings : OptimizationSettings) (rng : ℕ → ℚ) (r : AlgorithmResult),
      geneticExecute pieces panels settings rng = .ok r →
      r.unusedPieces = []) ∧
    (∃ r, geneticExecute gMixPieces [gPanel] gSettings (fun _ => 0) = .ok r ∧
      (expandPieces gMixPieces).length = 2 ∧
      r.placedPieces.map (fun p => p.id) = ["fit"] ∧
      r.unusedPieces = []) := by
  constructor
  · intro pieces panels settings rng r hok
    unfold geneticExecute at hok
    split at hok
    · exact absurd hok (by simp)
    · next pr hpr =>
      simp only [Except.ok.injEq] at hok
      subst hok
      exact geneticRun_unused_nil hpr
  · exact ⟨_, rfl, by decide, by decide, by decide⟩

set_option maxRecDepth 4000 in
/-- Witness for C10: the general statement applied to the deterministic
two-full-pieces genetic run. -/
theorem C10_genetic_unused_empty_witness :
    ∃ r, geneticExecute gFillPieces [gPanel] gSettings (fun _ => 0) = .ok r ∧
      r.unusedPieces = [] :=
  ⟨_, rfl, C10_genetic_unused_always_empty.1 gFillPieces [gPanel] gSettings
    (fun _ => 0) _ rfl⟩
